import Mathlib

/-!
Verification of the Nexus agent (Remote-Skills/nexus).

This file gives a shallow embedding, in Lean 4, of the parts of the Nexus
source that the frozen claims are about:

* `src/tools/functions.ts`: command risk classification (`assessCommandRisk`,
  the high/medium risk pattern lists), `getRiskDescription`,
  `formatCommandOutput` and `runCommand`;
* `src/tools/executor.ts`: the tool dispatcher `executeTool` (validation layer);
* `src/agent.ts` (the revision that carries `validateToolPairs` and the
  pair-preserving trim): `truncateToolResult`, `trimConversationHistory`,
  `validateToolPairs`, and the body of the `chatWithToolsAgentic` loop.

JavaScript strings are modelled by `String` (operated on through `String.data :
List Char`); JS truthiness of optional fields is modelled explicitly
(`truthyStr`, `truthyInt`, `truthyBool`); side-effecting operations
(filesystem, subprocess) are oracles: the dispatcher returns the action it
would forward instead of performing it, and `runCommand` takes the subprocess
outcome as an argument.  The environment flag `NEXUS_OPTIMIZE_TOKENS`
(`ENABLE_TOKEN_OPTIMIZATION` in the source) is a boolean parameter `optimize`.
-/

deriving instance DecidableEq for Except

namespace Nexus

/-! ## String utilities mirroring the JavaScript primitives used by the source -/

/-- Character class of the regex `\s` (the common whitespace characters). -/
def isWS (c : Char) : Bool :=
  c = ' ' || c = '\t' || c = '\n' || c = '\r' || c = '\x0b' || c = '\x0c'

/-- JS `String.prototype.trim`: strip leading and trailing whitespace. -/
def jsTrim (s : List Char) : List Char :=
  ((s.dropWhile isWS).reverse.dropWhile isWS).reverse

/-- JS `String.prototype.toLowerCase` on a character list (ASCII cases). -/
def lowerChars (s : List Char) : List Char :=
  s.map Char.toLower

/-- Substring containment scan: `containsSub needle hay` is JS
`hay.includes(needle)` on character lists. -/
def containsSub (needle : List Char) : List Char → Bool
  | [] => needle.isPrefixOf []
  | c :: rest => needle.isPrefixOf (c :: rest) || containsSub needle rest

/-- JS `hay.includes(needle)` on strings. -/
def strIncludes (hay needle : String) : Bool :=
  containsSub needle.data hay.data

/-- JS `s.substring(a, b)` for `a ≤ b` within bounds. -/
def jsSubstring (s : String) (a b : Nat) : String :=
  ⟨(s.data.drop a).take (b - a)⟩

/-- JS `s.substring(a)` (from index `a` to the end). -/
def jsSubstringFrom (s : String) (a : Nat) : String :=
  ⟨s.data.drop a⟩

/-- JS `s.split('\n')` on a character list: always at least one piece. -/
def splitNL : List Char → List (List Char)
  | [] => [[]]
  | c :: rest =>
    let r := splitNL rest
    if c = '\n' then [] :: r
    else
      match r with
      | [] => [[c]]
      | l :: ls => (c :: l) :: ls

/-- JS `s.split('\n')` on strings. -/
def splitLines (s : String) : List String :=
  (splitNL s.data).map String.mk

/-- JS `s.lastIndexOf('\n')`: index of the last newline, `-1` when none. -/
def lastIndexOfNL (s : List Char) : Int :=
  match s.reverse.findIdx? (fun c => c = '\n') with
  | none => -1
  | some i => (s.length : Int) - 1 - (i : Int)

/-! ## Data model: content blocks, turns, tool inputs -/

/-- A turn's role. -/
inductive Role
  | user
  | assistant
deriving DecidableEq

/-- The argument object the model passes to a tool (the union of all fields
the dispatcher and the operations read; an absent JS field is `none`). -/
structure ToolInput where
  path : Option String := none
  content : Option String := none
  mode : Option String := none
  old_text : Option String := none
  new_text : Option String := none
  pattern : Option String := none
  search_type : Option String := none
  search_mode : Option String := none
  target : Option String := none
  new_code : Option String := none
  command : Option String := none
  working_directory : Option String := none
  timeout_seconds : Option Int := none
  max_output_chars : Option Int := none
  approve_risky : Option Bool := none
  show_full_output : Option Bool := none
  recursive : Option Bool := none
deriving DecidableEq

/-- A content block of a message (text, tool_use, tool_result). -/
inductive Block
  | text (s : String)
  | toolUse (id name : String) (input : ToolInput)
  | toolResult (toolUseId content : String) (isError : Bool)
deriving DecidableEq

/-- Message content: a plain string or a block array (JS union type). -/
inductive Content
  | str (s : String)
  | blocks (bs : List Block)
deriving DecidableEq

/-- One turn of the conversation. -/
structure Message where
  role : Role
  content : Content
deriving DecidableEq

/-- JS truthiness of an optional string field (`undefined`, `null` and `''`
are falsy). -/
def truthyStr : Option String → Bool
  | none => false
  | some s => s != ""

/-- JS truthiness of an optional number field (`undefined`, `null` and `0`
are falsy). -/
def truthyInt : Option Int → Bool
  | none => false
  | some n => n != 0

/-- JS truthiness of an optional boolean field. -/
def truthyBool : Option Bool → Bool
  | none => false
  | some b => b

/-! ## Risk classification of shell commands (`functions.ts`)

The `HIGH_RISK_PATTERNS` and `MEDIUM_RISK_PATTERNS` regex lists are embedded
as decidable matchers over the trimmed, lowercased command (the source tests
each case-insensitive regex against `command.trim()`). -/

/-- Match a literal token, then continue with `k` on the rest. -/
def litThen (tok : String) (k : List Char → Bool) (s : List Char) : Bool :=
  tok.data.isPrefixOf s && k (s.drop tok.data.length)

/-- Regex `\s*` then `k`. -/
def wsStarThen (k : List Char → Bool) : List Char → Bool
  | [] => k []
  | c :: rest => k (c :: rest) || (isWS c && wsStarThen k rest)

/-- Regex `\s+` then `k`. -/
def wsPlusThen (k : List Char → Bool) : List Char → Bool
  | [] => false
  | c :: rest => isWS c && wsStarThen k rest

/-- Alternation of literal tokens, then `k`. -/
def anyTok (toks : List String) (k : List Char → Bool) (s : List Char) : Bool :=
  toks.any (fun t => litThen t k s)

/-- Trivial continuation (the regex may end here). -/
def matchEnd : List Char → Bool := fun _ => true

/-- Unanchored search: the pattern may start at any position. -/
def scanAny (p : List Char → Bool) : List Char → Bool
  | [] => p []
  | c :: rest => p (c :: rest) || scanAny p rest

/-- Regex `.*` (no newline) then `k`. -/
def dotStarThen (k : List Char → Bool) : List Char → Bool
  | [] => k []
  | c :: rest => k (c :: rest) || (c != '\n' && dotStarThen k rest)

/-- Anchored `^(a|b|...)\s`: one of the alternatives at the start, followed by
a whitespace character. -/
def startAltWS (alts : List String) (s : List Char) : Bool :=
  anyTok alts (fun rest => match rest with | c :: _ => isWS c | [] => false) s

/-- The `HIGH_RISK_PATTERNS` list of `functions.ts`, as one disjunction over
the trimmed lowercased command. -/
def matchesHighRisk (c : List Char) : Bool :=
  startAltWS ["rm", "del", "rmdir", "rd"] c ||
  startAltWS ["format"] c ||
  scanAny (litThen "--force" matchEnd) c ||
  scanAny (litThen "--hard" matchEnd) c ||
  startAltWS ["chmod", "chown", "sudo", "su"] c ||
  startAltWS ["systemctl", "service"] c ||
  startAltWS ["curl", "wget", "ssh", "scp", "rsync"] c ||
  (litThen "npm" (wsPlusThen (anyTok ["install", "i"] matchEnd)) c ||
    litThen "pip" (wsPlusThen (litThen "install" matchEnd)) c ||
    litThen "apt" (wsPlusThen (anyTok ["install", "remove"] matchEnd)) c ||
    litThen "yum" (wsPlusThen (anyTok ["install", "remove"] matchEnd)) c) ||
  scanAny (litThen "git" (wsPlusThen (anyTok ["push", "force-push"] matchEnd))) c ||
  scanAny (litThen "git" (wsPlusThen (litThen "push" (dotStarThen (litThen "--force" matchEnd))))) c ||
  startAltWS ["mysql", "psql", "mongo"] c ||
  scanAny (litThen "drop" (wsPlusThen (anyTok ["table", "database"] matchEnd))) c ||
  litThen "docker" (wsPlusThen (anyTok ["run", "exec", "rm", "rmi"] matchEnd)) c ||
  litThen "docker-compose" (wsPlusThen (anyTok ["up", "down"] matchEnd)) c

/-- The `MEDIUM_RISK_PATTERNS` list of `functions.ts`. -/
def matchesMediumRisk (c : List Char) : Bool :=
  litThen "npm" (wsPlusThen (anyTok ["run", "test", "build", "start"] matchEnd)) c ||
  litThen "pip" (wsPlusThen (anyTok ["list", "show", "freeze"] matchEnd)) c ||
  litThen "git" (wsPlusThen (anyTok ["add", "commit", "checkout", "branch", "merge"] matchEnd)) c ||
  startAltWS ["mkdir", "touch", "cp", "copy", "mv", "move"] c

/-- Risk tier of a shell command. -/
inductive RiskLevel
  | low
  | medium
  | high
deriving DecidableEq

/-- `assessCommandRisk` of `functions.ts`: the high-risk patterns are tested
first, then the medium-risk ones. -/
def assessCommandRisk (command : String) : RiskLevel :=
  let c := lowerChars (jsTrim command.data)
  if matchesHighRisk c then .high
  else if matchesMediumRisk c then .medium
  else .low

/-- `getRiskDescription` of `functions.ts`. -/
def getRiskDescription (command : String) : String :=
  let cmd : String := ⟨lowerChars command.data⟩
  if strIncludes cmd "rm " || strIncludes cmd "del " then
    "- Delete files or directories permanently\n- Data loss if used incorrectly"
  else if strIncludes cmd "chmod" || strIncludes cmd "chown" then
    "- Modify file permissions or ownership\n- Could affect system security"
  else if strIncludes cmd "sudo" || strIncludes cmd "su " then
    "- Execute with elevated privileges\n- Full system access"
  else if strIncludes cmd "curl" || strIncludes cmd "wget" then
    "- Download files from the internet\n- Potential security risks from external sources"
  else if strIncludes cmd "install" then
    "- Install new packages or software\n- Could modify system or introduce vulnerabilities"
  else if strIncludes cmd "git push" then
    "- Push changes to remote repository\n- Could overwrite or affect shared code"
  else if strIncludes cmd "format" then
    "- Format drives or partitions\n- Complete data loss on target"
  else
    "- Potentially dangerous operation\n- Review command carefully before approval"

/-- The warning string `runCommand` returns for an unapproved high-risk
command (the template literal at `functions.ts`, braces escaped). -/
def highRiskWarning (command : String) : String :=
  "⚠️ HIGH-RISK COMMAND DETECTED: \"" ++ command ++
  "\"\n\nThis command could potentially:\n" ++ getRiskDescription command ++
  "\n\nTo execute this command, you must explicitly approve it by adding 'approve_risky: true' to the command parameters.\n\nExample:\n\x7b\n  \"command\": \"" ++
  command ++
  "\",\n  \"approve_risky\": true\n\x7d\n\nOnly approve if you have reviewed the command and understand the risks."

/-! ## Command output formatting and `runCommand` (`functions.ts`) -/

/-- `formatCommandOutput` of `functions.ts`.  The source compares
`lastNewline > maxChars * 0.8` in JS float arithmetic; it is modelled as the
exact rational comparison `5 * lastNewline > 4 * maxChars`, which agrees with
the float comparison at the values the program uses (both branches differ only
in a cosmetic trailing note). -/
def formatCommandOutput (stdout stderr : String) (showFull : Bool) (maxChars : Nat) : String :=
  let out1 : String :=
    if stdout != "" && !(jsTrim stdout.data).isEmpty then
      if showFull || stdout.length ≤ maxChars / 2 then
        "📤 OUTPUT:\n" ++ stdout ++ "\n"
      else
        let lines := splitLines stdout
        if lines.length > 50 then
          "📤 OUTPUT (last 50 lines of " ++ toString lines.length ++ "):\n" ++
            String.intercalate "\n" (lines.drop (lines.length - 50)) ++ "\n"
        else
          "📤 OUTPUT:\n" ++ stdout ++ "\n"
    else ""
  let output := out1 ++
    (if stderr != "" && !(jsTrim stderr.data).isEmpty then "⚠️ STDERR:\n" ++ stderr ++ "\n" else "")
  if !showFull && output.length > maxChars then
    let truncated := jsSubstring output 0 maxChars
    let lastNewline := lastIndexOfNL truncated.data
    if 5 * lastNewline > 4 * (maxChars : Int) then
      jsSubstring truncated 0 lastNewline.toNat ++
        "\n\n📝 Output truncated (" ++ toString output.length ++ " chars total, showing " ++
        toString lastNewline ++ ")"
    else
      truncated ++ "\n\n📝 Output truncated (" ++ toString output.length ++ " chars total)"
  else output

/-- Outcome of the underlying subprocess (`execAsync`): success with streams,
or rejection carrying `killed`, captured streams and the exit code. -/
inductive ExecOutcome
  | ok (stdout stderr : String)
  | err (killed : Bool) (stdout stderr : String) (code : Option Int)
deriving DecidableEq

/-- JS `v || d` for an optional number field. -/
def orDefaultInt (v : Option Int) (d : Int) : Int :=
  if truthyInt v then v.getD d else d

/-- The error string `runCommand` builds in its catch block for a command
that failed without being killed (`functions.ts`): note it is RETURNED as an
ordinary string, not thrown. -/
def commandFailedMsg (command stdout stderr : String) (code : Option Int) : String :=
  "❌ Command failed: " ++ command ++ "\n" ++
  (if stdout != "" then "\nSTDOUT:\n" ++ stdout else "") ++
  (if stderr != "" then "\nSTDERR:\n" ++ stderr else "") ++
  (match code with
   | some c => "\nExit Code: " ++ toString c
   | none => "")

/-- `runCommand` of `functions.ts`.  `cwd0` stands for `process.cwd()`;
`exec` is the subprocess outcome.  The result pairs the returned-or-thrown
value (`Except.error` models a thrown exception) with a flag recording
whether the subprocess was consulted at all (`false` exactly on the
high-risk early return, which stands before `execAsync` in the source). -/
def runCommand (cwd0 : String) (args : ToolInput) (exec : ExecOutcome) :
    Except String String × Bool :=
  let timeoutSecs := orDefaultInt args.timeout_seconds 30
  let maxOutputChars := orDefaultInt args.max_output_chars 10000
  let cmd := args.command.getD ""
  let cwd := if truthyStr args.working_directory then args.working_directory.getD "" else cwd0
  let riskLevel := assessCommandRisk cmd
  if riskLevel == RiskLevel.high && !truthyBool args.approve_risky then
    (.ok (highRiskWarning cmd), false)
  else
    match exec with
    | .ok stdout stderr =>
      let out0 := formatCommandOutput stdout stderr (truthyBool args.show_full_output)
        maxOutputChars.toNat
      let output := if out0 = "" then "✅ Command executed successfully with no output." else out0
      (.ok ("🔧 Command: " ++ cmd ++ "\n📁 Working Directory: " ++ cwd ++ "\n" ++
        (if riskLevel == RiskLevel.high then "⚠️ Risk Level: HIGH (approved)\n" else "") ++
        "⏱️ Timeout: " ++ toString timeoutSecs ++ "s\n\n" ++ output), true)
    | .err killed stdout stderr code =>
      if killed then
        (.error ("⏰ Command was killed (timeout: " ++ toString timeoutSecs ++ "s)"), true)
      else
        (.ok (commandFailedMsg cmd stdout stderr code), true)

/-! ## The tool dispatcher (`executor.ts`)

`executeTool` validates the arguments and, on success, forwards to the named
operation.  The forwarded call is modelled as a `ToolAction` value instead of
being performed; a thrown validation error is `Except.error`.  The second
component of the result is the argument object after the call: the source
mutates `input.new_text` in the `edit_file` path, and that mutation is made
explicit. -/

/-- The operation the dispatcher would forward to (with the argument object
it would pass). -/
inductive ToolAction
  | createFileAct (input : ToolInput)
  | readFileAct (input : ToolInput)
  | editFileAct (input : ToolInput)
  | deleteFileAct (input : ToolInput)
  | listFilesAct (input : ToolInput)
  | smartSearchAct (input : ToolInput)
  | smartReplaceAct (input : ToolInput)
  | runCommandAct (input : ToolInput)
deriving DecidableEq

/-- The `edit_file` case of `executeTool` (`executor.ts`): path, mode,
mode-enum and (in replace mode) `old_text` validation, then the documented
defaulting of a missing `new_text` to the empty string. -/
def validateEditFile (input : ToolInput) : Except String ToolAction × ToolInput :=
  if !truthyStr input.path then
    (.error "edit_file requires \"path\" parameter", input)
  else if !truthyStr input.mode then
    (.error "edit_file requires \"mode\" parameter (\"replace\" or \"append\")", input)
  else if input.mode != some "replace" && input.mode != some "append" then
    (.error "edit_file mode must be \"replace\" or \"append\"", input)
  else if input.mode == some "replace" && !truthyStr input.old_text then
    (.error "edit_file in replace mode requires \"old_text\" parameter. Use read_file first to get the exact text you want to replace.", input)
  else
    let input2 := if input.new_text = none then { input with new_text := some "" } else input
    (.ok (.editFileAct input2), input2)

/-- The `create_file` case of `executeTool` (the `content` check is
`=== undefined || === null`, so an empty string passes). -/
def validateCreateFile (input : ToolInput) : Except String ToolAction :=
  if !truthyStr input.path then
    .error "create_file requires \"path\" parameter"
  else if input.content = none then
    .error "create_file requires \"content\" parameter. Use empty string \"\" for blank file."
  else .ok (.createFileAct input)

/-- The `read_file` case of `executeTool`. -/
def validateReadFile (input : ToolInput) : Except String ToolAction :=
  if !truthyStr input.path then
    .error "read_file requires \"path\" parameter"
  else .ok (.readFileAct input)

/-- The `delete_file` case of `executeTool`. -/
def validateDeleteFile (input : ToolInput) : Except String ToolAction :=
  if !truthyStr input.path then
    .error "delete_file requires \"path\" parameter"
  else .ok (.deleteFileAct input)

/-- The `smart_search` case of `executeTool`. -/
def validateSmartSearch (input : ToolInput) : Except String ToolAction :=
  if !truthyStr input.pattern then
    .error "smart_search requires \"pattern\" parameter"
  else if !truthyStr input.search_type then
    .error "smart_search requires \"search_type\" parameter (\"filename\" or \"content\")"
  else if input.search_type != some "filename" && input.search_type != some "content" then
    .error "smart_search search_type must be \"filename\" or \"content\""
  else .ok (.smartSearchAct input)

/-- The `smart_replace` case of `executeTool`. -/
def validateSmartReplace (input : ToolInput) : Except String ToolAction :=
  if !truthyStr input.path then
    .error "smart_replace requires \"path\" parameter"
  else if !truthyStr input.search_mode then
    .error "smart_replace requires \"search_mode\" parameter"
  else if !(["function", "class", "method", "block", "variable"].any
      (fun m => input.search_mode == some m)) then
    .error "smart_replace search_mode must be one of: function, class, method, block, variable"
  else if !truthyStr input.target then
    .error "smart_replace requires \"target\" parameter (name of code element to replace)"
  else if input.new_code = none then
    .error "smart_replace requires \"new_code\" parameter"
  else .ok (.smartReplaceAct input)

/-- The `run_command` case of `executeTool` (timeout and output-cap bounds). -/
def validateRunCommand (input : ToolInput) : Except String ToolAction :=
  if !truthyStr input.command then
    .error "run_command requires \"command\" parameter"
  else if truthyInt input.timeout_seconds &&
      (input.timeout_seconds.getD 0 < 1 || input.timeout_seconds.getD 0 > 600) then
    .error "run_command timeout_seconds must be between 1 and 600 seconds"
  else if truthyInt input.max_output_chars && input.max_output_chars.getD 0 < 100 then
    .error "run_command max_output_chars must be at least 100"
  else .ok (.runCommandAct input)

/-- `executeTool` of `executor.ts`: the validation switch over the tool name. -/
def executeTool (name : String) (input : ToolInput) : Except String ToolAction × ToolInput :=
  if name == "create_file" then (validateCreateFile input, input)
  else if name == "read_file" then (validateReadFile input, input)
  else if name == "edit_file" then validateEditFile input
  else if name == "delete_file" then (validateDeleteFile input, input)
  else if name == "list_files" then (.ok (.listFilesAct input), input)
  else if name == "smart_search" then (validateSmartSearch input, input)
  else if name == "smart_replace" then (validateSmartReplace input, input)
  else if name == "run_command" then (validateRunCommand input, input)
  else (.error ("Unknown tool: " ++ name), input)

/-! ## Agent constants and tool-result truncation (`agent.ts`) -/

/-- `MAX_ITERATIONS` of `agent.ts`. -/
def MAX_ITERATIONS : Nat := 15

/-- `MAX_CONTEXT_MESSAGES` of `agent.ts`. -/
def MAX_CONTEXT_MESSAGES : Nat := 10

/-- `MAX_TOOL_RESULT_LENGTH` of `agent.ts`. -/
def MAX_TOOL_RESULT_LENGTH : Nat := 2000

/-- `truncateToolResult` of `agent.ts`: per-tool truncation policy.
`optimize` is `ENABLE_TOKEN_OPTIMIZATION`. -/
def truncateToolResult (optimize : Bool) (result : String) (toolName : String) : String :=
  if optimize = false ∨ result.length ≤ MAX_TOOL_RESULT_LENGTH then result
  else if toolName == "list_files" then
    let lines := splitLines result
    if lines.length > 50 then
      String.intercalate "\n" (lines.take 30) ++
        "\n\n... [" ++ toString (lines.length - 30) ++
        " more files truncated for token efficiency] ...\n\n" ++
        String.intercalate "\n" (lines.drop (lines.length - 10))
    else result
  else if toolName == "read_file" then
    let halfLength := MAX_TOOL_RESULT_LENGTH / 2
    jsSubstring result 0 halfLength ++
      "\n\n... [" ++ toString (result.length - MAX_TOOL_RESULT_LENGTH) ++
      " characters truncated for token efficiency] ...\n\n" ++
      jsSubstringFrom result (result.length - halfLength)
  else if toolName == "smart_search" then
    let searchLines := splitLines result
    if searchLines.length > 20 then
      String.intercalate "\n" (searchLines.take 20) ++
        "\n... [" ++ toString (searchLines.length - 20) ++ " more search results truncated] ..."
    else result
  else if toolName == "run_command" then
    if strIncludes result "ERROR" || strIncludes result "error" then result
    else
      jsSubstring result 0 MAX_TOOL_RESULT_LENGTH ++
        "\n\n... [output truncated for token efficiency] ..."
  else
    jsSubstring result 0 MAX_TOOL_RESULT_LENGTH ++
      "\n\n... [truncated for token efficiency] ..."

/-! ## Tool pair bookkeeping over the conversation -/

/-- The tool_use id a block carries, if any. -/
def blockUseIds : Block → List String
  | .toolUse id _ _ => [id]
  | _ => []

/-- The tool_use_id a tool_result block carries, if any. -/
def blockResultIds : Block → List String
  | .toolResult id _ _ => [id]
  | _ => []

/-- All tool_use ids of one message. -/
def msgUseIds (m : Message) : List String :=
  match m.content with
  | .str _ => []
  | .blocks bs => bs.flatMap blockUseIds

/-- All tool_result correlation ids of one message. -/
def msgResultIds (m : Message) : List String :=
  match m.content with
  | .str _ => []
  | .blocks bs => bs.flatMap blockResultIds

/-- All tool_use ids of a message list. -/
def allUseIds (msgs : List Message) : List String :=
  msgs.flatMap msgUseIds

/-- All tool_result correlation ids of a message list. -/
def allResultIds (msgs : List Message) : List String :=
  msgs.flatMap msgResultIds

/-- `validateToolPairs` of `agent.ts`: collect every tool_use id and every
tool_result id over the whole message list (regardless of role, as the
source does) and report `false` when some tool_result id matches no
tool_use id. -/
def validateToolPairs (msgs : List Message) : Bool :=
  (allResultIds msgs).all (fun t => (allUseIds msgs).contains t)

/-- Whether a message's content is a block array holding a tool_result
(the source's `content.some(block => block.type === 'tool_result')`). -/
def hasToolResultBlock (m : Message) : Bool :=
  match m.content with
  | .str _ => false
  | .blocks bs => bs.any (fun b => match b with | .toolResult _ _ _ => true | _ => false)

/-- Whether a message's content is a block array holding a tool_use. -/
def hasToolUseBlock (m : Message) : Bool :=
  match m.content with
  | .str _ => false
  | .blocks bs => bs.any (fun b => match b with | .toolUse _ _ _ => true | _ => false)

/-- Whether a message's content is a block array (`typeof content ===
'object'` in the source: block arrays are objects, strings are not). -/
def contentIsBlocks (m : Message) : Bool :=
  match m.content with
  | .blocks _ => true
  | .str _ => false

/-! ## History trimming (`trimConversationHistory`, `agent.ts`)

The source initialises `keepFromIndex` and then, for each index `i` from the
initial `keepFromIndex` to the end, lowers `keepFromIndex` when cutting at it
would separate a tool_result message from the assistant message before it, or
an assistant tool_use message from the user message after it.  The two
conditions and the loop are transcribed below. -/

/-- First condition of the trim loop at index `i`: a user message with
tool_result blocks whose predecessor is an assistant message (then
`keepFromIndex` is lowered to `i - 1`). -/
def trimCondResult (msgs : List Message) (i : Nat) : Bool :=
  match msgs.get? i with
  | none => false
  | some m =>
    m.role == .user && hasToolResultBlock m && decide (0 < i) &&
      (match msgs.get? (i - 1) with
       | some p => p.role == .assistant
       | none => false)

/-- Second condition of the trim loop at index `i`: an assistant message with
tool_use blocks whose successor is a user message with array content (then
`keepFromIndex` is lowered to `i`). -/
def trimCondUse (msgs : List Message) (i : Nat) : Bool :=
  match msgs.get? i with
  | none => false
  | some m =>
    m.role == .assistant && hasToolUseBlock m && decide (i < msgs.length - 1) &&
      (match msgs.get? (i + 1) with
       | some nxt => nxt.role == .user && contentIsBlocks nxt
       | none => false)

/-- One iteration of the trim loop body. -/
def trimStep (msgs : List Message) (acc i : Nat) : Nat :=
  let acc1 := if trimCondResult msgs i then min acc (i - 1) else acc
  if trimCondUse msgs i then min acc1 i else acc1

/-- The final `keepFromIndex` after the loop, starting from `k0`. -/
def trimKeepFrom (msgs : List Message) (k0 : Nat) : Nat :=
  (List.range' k0 (msgs.length - k0)).foldl (trimStep msgs) k0

/-- The synthetic marker turn inserted when history was trimmed. -/
def summaryMessage : Message :=
  ⟨.user, .str "[Previous conversation history truncated for token efficiency. Tool pairs preserved.]"⟩

/-- `trimConversationHistory` of `agent.ts` (the pair-preserving revision). -/
def trimConversationHistory (optimize : Bool) (msgs : List Message) : List Message :=
  if optimize = false ∨ msgs.length ≤ MAX_CONTEXT_MESSAGES then msgs
  else
    match msgs with
    | [] => msgs
    | m0 :: _ =>
      let k0 := max 1 (msgs.length - MAX_CONTEXT_MESSAGES + 1)
      let k := trimKeepFrom msgs k0
      if k > 1 then m0 :: summaryMessage :: msgs.drop k else msgs

/-- The outbound message list of one loop iteration (`chatWithToolsAgentic`):
trim when optimizing, then the validation guard, which on failure replaces
the transmitted list by just the original first turn before anything is
sent. -/
def prepareOutbound (optimize : Bool) (msgs : List Message) : List Message :=
  let opt := if optimize then trimConversationHistory optimize msgs else msgs
  if validateToolPairs opt then opt else msgs.take 1

/-! ## The pairing discipline of loop-produced transcripts

The agentic loop appends tool results in a single user turn placed
immediately after the assistant turn that carried the corresponding
tool_use blocks, with matching ids.  `wellFormedPairs` captures exactly
this adjacency discipline; `pairedEarlier` is the claimed invariant: every
tool_result id is matched by a tool_use in an earlier assistant turn of
the same transcript. -/

/-- One adjacency obligation: if `cur` carries tool_result blocks then it
is a user turn, `prev` is an assistant turn, and every result id of `cur`
is a tool_use id of `prev`. -/
def wfStep (prev cur : Message) : Bool :=
  if (msgResultIds cur).isEmpty then true
  else
    cur.role == .user && prev.role == .assistant &&
      (msgResultIds cur).all (fun t => (msgUseIds prev).contains t)

/-- The adjacency discipline along a list, given the preceding turn. -/
def wfAux : Message → List Message → Bool
  | _, [] => true
  | prev, cur :: rest => wfStep prev cur && wfAux cur rest

/-- A transcript as produced by the loop: the opening turn carries no
tool_result blocks and every later turn obeys `wfStep` with respect to its
predecessor. -/
def wellFormedPairs : List Message → Bool
  | [] => true
  | m :: rest => (msgResultIds m).isEmpty && wfAux m rest

/-- The tool_use ids a turn contributes to the pool of matchable
invocations: only assistant turns count. -/
def usesIfAssistant (m : Message) : List String :=
  if m.role == .assistant then msgUseIds m else []

/-- Scan a transcript with the pool `seen` of tool_use ids of earlier
assistant turns: every tool_result id must already be in the pool. -/
def pairedEarlierAux (seen : List String) : List Message → Bool
  | [] => true
  | m :: rest =>
    (msgResultIds m).all (fun t => seen.contains t) &&
      pairedEarlierAux (seen ++ usesIfAssistant m) rest

/-- The claimed invariant: in the transcript, every tool_result block's
tool_use_id refers to a tool_use block of an earlier assistant turn. -/
def pairedEarlier (msgs : List Message) : Bool :=
  pairedEarlierAux [] msgs

/-! ## The agent loop (`chatWithToolsAgentic`, `agent.ts`)

The loop is modelled as a step function over an explicit state, driven by an
environment supplying, per iteration, the model's response content, the
user's decision at the plan prompt, and the outcome of each dispatched tool
(`executeTool` plus the operation behind it; a thrown error is
`Except.error`).  Plan detection (`extractPlan`, a regex heuristic) is an
uninterpreted parameter: the claims below do not depend on its definition. -/

/-- The user's decision at the plan-approval prompt. -/
inductive ApprovalResult
  | approve (newPlan : Option String)
  | feedbackGiven (feedback : String)
  | cancelled

/-- The environment's input for one loop iteration. -/
structure IterInput where
  response : List Block
  approval : ApprovalResult
  exec : String → ToolInput → Except String String

/-- The loop's mutable state. -/
structure AgentState where
  messages : List Message
  iterationCount : Nat
  actionCount : Nat
  planApproved : Bool
deriving DecidableEq

/-- An outbound model request: the transmitted turn list and the tool list
(`tools: planApproved ? tools : []` in the source). -/
structure ModelRequest where
  sentMessages : List Message
  toolsProvided : List String
deriving DecidableEq

/-- The names of the tool catalog (`tools` of `tools/index.ts`). -/
def toolCatalogNames : List String :=
  ["create_file", "read_file", "edit_file", "delete_file", "list_files",
   "smart_search", "smart_replace", "run_command"]

/-- The request built at the top of each iteration, from the state before the
response is processed. -/
def buildRequest (optimize : Bool) (st : AgentState) : ModelRequest :=
  ⟨prepareOutbound optimize st.messages,
   if st.planApproved then toolCatalogNames else []⟩

/-- How one iteration ends: `next` is the source's `continue`, `completed`
its success `break`, `cancelled` its `return` at the plan prompt. -/
inductive StepStatus
  | next
  | completed
  | cancelled
deriving DecidableEq

/-- The text blocks of a response, in order. -/
def textsOf (bs : List Block) : List String :=
  bs.filterMap (fun b => match b with | .text s => some s | _ => none)

/-- The tool_use blocks of a response, as (id, name, input) triples. -/
def toolUsesOf (bs : List Block) : List (String × String × ToolInput) :=
  bs.filterMap (fun b => match b with | .toolUse id nm inp => some (id, nm, inp) | _ => none)

/-- JS `content.includes(needle)` on a message content: substring search on a
string, and `Array.prototype.includes` (element equality, hence `false` for
any string needle) on a block array. -/
def contentIncludes (c : Content) (needle : String) : Bool :=
  match c with
  | .str s => strIncludes s needle
  | .blocks _ => false

/-- The source's `messages[messages.length - 1].content.includes(...)` guard
(with its `messages.length > 0` check). -/
def lastContentIncludes (msgs : List Message) (needle : String) : Bool :=
  match msgs.getLast? with
  | none => false
  | some m => contentIncludes m.content needle

/-- The substring the first-post-approval check looks for. -/
def planApprovedMarker : String := "Plan is APPROVED"

/-- Append one user instruction turn. -/
def pushUser (st : AgentState) (s : String) : AgentState :=
  { st with messages := st.messages ++ [⟨.user, .str s⟩] }

/-- The instruction turn pushed when the user supplies a replacement plan. -/
def approvedNewPlanMsg (np : String) : String :=
  "Please follow this plan instead:\n\n" ++ np ++
  "\n\nPlan is APPROVED. Start executing it now using the available tools. Do NOT create another plan."

/-- The instruction turn pushed on plain approval. -/
def approvedMsg : String :=
  "Plan is APPROVED. Start executing it step by step using the available tools. Do NOT create another plan."

/-- The corrective instruction injected when the first post-approval response
carries no tool use. -/
def correctiveMsg : String :=
  "You need to start executing the approved plan using tools. Begin with the first step and use the appropriate tool."

/-- Build one tool_result block from a dispatched tool's outcome, as the
execute loop does: a returned string is truncated and marked ok, a thrown
error becomes an is_error block with the message. -/
def toolResultBlock (optimize : Bool) (exec : String → ToolInput → Except String String)
    (tu : String × String × ToolInput) : Block :=
  match exec tu.2.1 tu.2.2 with
  | .ok r => .toolResult tu.1 (truncateToolResult optimize r tu.2.1) false
  | .error m => .toolResult tu.1 ("Error: " ++ m) true

/-- The planning-phase routing of one iteration (texts present, plan not
yet approved): plan detected leads to the approval prompt (approve /
feedback / cancel), no plan detected to a plan-request instruction turn. -/
def stepPlan (st : AgentState) (approval : ApprovalResult) (plan : Option String) :
    AgentState × StepStatus :=
  match plan with
  | some _ =>
    match approval with
    | .approve np =>
      let msg := match np with
        | some p => approvedNewPlanMsg p
        | none => approvedMsg
      ({ st with messages := st.messages ++ [⟨.user, .str msg⟩], planApproved := true }, .next)
    | .feedbackGiven fb =>
      (pushUser st ("Please revise the plan based on this feedback: " ++ fb), .next)
    | .cancelled => (st, .cancelled)
  | none =>
    (pushUser st "Please provide a clear numbered plan before proceeding. Start with \"📋 PLAN:\" and list specific steps.", .next)

/-- The tool-phase routing of one iteration: pre-approval tool use is
refused, a tool-free approved response concludes (or triggers the
corrective turn right after approval), a tool-free unapproved response asks
for a plan, and otherwise the tool invocations are dispatched serially and
their outcomes appended as one user turn. -/
def stepTools (optimize : Bool) (st : AgentState) (inp : IterInput) :
    AgentState × StepStatus :=
  if !st.planApproved && !(toolUsesOf inp.response).isEmpty then
    (pushUser st "Please provide a clear plan first before using any tools. Start with \"📋 PLAN:\" and wait for approval.", .next)
  else if (toolUsesOf inp.response).isEmpty && st.planApproved then
    if lastContentIncludes st.messages planApprovedMarker then
      (pushUser st correctiveMsg, .next)
    else
      (st, .completed)
  else if (toolUsesOf inp.response).isEmpty && !st.planApproved then
    (pushUser st "Please provide a detailed plan with numbered steps before proceeding.", .next)
  else
    ({ st with
        messages := (st.messages ++ [⟨.assistant, .blocks inp.response⟩]) ++
          [⟨.user, .blocks ((toolUsesOf inp.response).map (toolResultBlock optimize inp.exec))⟩],
        actionCount := st.actionCount + (toolUsesOf inp.response).length },
      .next)

/-- The body of one loop iteration after the model call: response
classification, the plan gate, and tool dispatch.  Returns the new state and
how the iteration ends. -/
def stepCore (extractPlan : String → Option String) (optimize : Bool)
    (st : AgentState) (inp : IterInput) : AgentState × StepStatus :=
  if !(textsOf inp.response).isEmpty && !st.planApproved then
    stepPlan st inp.approval (extractPlan (String.intercalate "\n" (textsOf inp.response)))
  else
    stepTools optimize st inp

/-- The result of one full iteration: the request that was sent, then the
outcome of `stepCore` on the response. -/
structure StepResult where
  state : AgentState
  status : StepStatus
  request : ModelRequest

/-- One full iteration: the request is built from the pre-step state (the
source builds it before the model call), then the body runs. -/
def stepBody (extractPlan : String → Option String) (optimize : Bool)
    (st : AgentState) (inp : IterInput) : StepResult :=
  let c := stepCore extractPlan optimize st inp
  ⟨c.1, c.2, buildRequest optimize st⟩

/-- Why the run ended. -/
inductive ExitReason
  | maxIterations
  | completed
  | cancelled
deriving DecidableEq

/-- The outcome of a run: final state, exit reason, and the log of issued
requests, each paired with the value of `planApproved` at the moment the
request was built. -/
structure RunResult where
  finalState : AgentState
  exit : ExitReason
  requests : List (Bool × ModelRequest)

/-- The `while (iterationCount < MAX_ITERATIONS)` loop, by fuel: the fuel is
`MAX_ITERATIONS - iterationCount`, and the counter increments at the top of
each iteration exactly as in the source. -/
def runAux (extractPlan : String → Option String) (optimize : Bool)
    (env : Nat → IterInput) : Nat → AgentState → RunResult
  | 0, st => ⟨st, .maxIterations, []⟩
  | fuel + 1, st =>
    let st1 := { st with iterationCount := st.iterationCount + 1 }
    let r := stepBody extractPlan optimize st1 (env st.iterationCount)
    match r.status with
    | .next =>
      let rest := runAux extractPlan optimize env fuel r.state
      ⟨rest.finalState, rest.exit, (st1.planApproved, r.request) :: rest.requests⟩
    | .completed => ⟨r.state, .completed, [(st1.planApproved, r.request)]⟩
    | .cancelled => ⟨r.state, .cancelled, [(st1.planApproved, r.request)]⟩

/-- The state `chatWithToolsAgentic` starts from. -/
def initialState (userMessage : String) : AgentState :=
  ⟨[⟨.user, .str userMessage⟩], 0, 0, false⟩

/-- One task invocation of `chatWithToolsAgentic` (transport errors absent). -/
def runAgent (extractPlan : String → Option String) (optimize : Bool)
    (env : Nat → IterInput) (userMessage : String) : RunResult :=
  runAux extractPlan optimize env MAX_ITERATIONS (initialState userMessage)

/-- The warning check after the loop (`if (iterationCount >= MAX_ITERATIONS)`
prints the "Reached maximum iterations" warning; the function then returns
normally). -/
def warnsMaxIterations (r : RunResult) : Bool :=
  decide (MAX_ITERATIONS ≤ r.finalState.iterationCount)

/-! ## Claims -/

/-- C10: a run_command input whose command matches a high-risk pattern (high
patterns are tested before medium ones) and whose approve_risky flag is not
true makes `runCommand` return the high-risk warning string, for every
possible subprocess outcome, with the subprocess never consulted. -/
theorem c10_high_risk_blocks_execution :
    (∀ (cwd0 : String) (args : ToolInput) (exec : ExecOutcome),
      assessCommandRisk (args.command.getD "") = .high →
      truthyBool args.approve_risky = false →
      runCommand cwd0 args exec = (.ok (highRiskWarning (args.command.getD "")), false)) ∧
    ∀ cmd : String, matchesHighRisk (lowerChars (jsTrim cmd.data)) = true →
      assessCommandRisk cmd = .high := by
  constructor
  · intro cwd0 args exec hrisk hap
    simp [runCommand, hrisk, hap]
  · intro cmd h
    simp [assessCommandRisk, h]

/-- C10 witness: "rm -rf build" is classified high and, unapproved, returns
the warning without running anything. -/
theorem c10_witness :
    assessCommandRisk "rm -rf build" = .high ∧
    truthyBool (({ command := some "rm -rf build" } : ToolInput)).approve_risky = false ∧
    runCommand "/repo" { command := some "rm -rf build" } (.ok "" "") =
      (.ok (highRiskWarning "rm -rf build"), false) := by
  refine ⟨by decide, by decide, ?_⟩
  exact c10_high_risk_blocks_execution.1 "/repo" { command := some "rm -rf build" }
    (.ok "" "") (by decide) (by decide)

/-- C6: in "replace" mode the dispatcher errors without forwarding when
old_text is absent or empty, and defaults an absent new_text to the empty
string (forwarding the edit) instead of erroring. -/
theorem c6_edit_replace_validation :
    ∀ input : ToolInput,
      truthyStr input.path = true → input.mode = some "replace" →
      ((truthyStr input.old_text = false →
        executeTool "edit_file" input =
          (.error "edit_file in replace mode requires \"old_text\" parameter. Use read_file first to get the exact text you want to replace.", input)) ∧
       (input.new_text = none → truthyStr input.old_text = true →
        executeTool "edit_file" input =
          (.ok (.editFileAct { input with new_text := some "" }),
           { input with new_text := some "" }))) := by
  intro input hpath hmode
  have hname : executeTool "edit_file" input = validateEditFile input := rfl
  constructor
  · intro hold
    simp [hname, validateEditFile, hpath, hmode, hold]
    decide
  · intro hnew hold
    simp [hname, validateEditFile, hpath, hmode, hold, hnew]
    decide

/-- C6 witness: the spec's scenario (path "a.ts", replace, no old_text)
errors, and the same input with old_text but no new_text forwards the edit
with new_text defaulted to the empty string. -/
theorem c6_witness :
    executeTool "edit_file" { path := some "a.ts", mode := some "replace" } =
      (.error "edit_file in replace mode requires \"old_text\" parameter. Use read_file first to get the exact text you want to replace.",
       { path := some "a.ts", mode := some "replace" }) ∧
    executeTool "edit_file" { path := some "a.ts", mode := some "replace", old_text := some "foo" } =
      (.ok (.editFileAct { path := some "a.ts", mode := some "replace", old_text := some "foo", new_text := some "" }),
       { path := some "a.ts", mode := some "replace", old_text := some "foo", new_text := some "" }) := by
  constructor
  · exact (c6_edit_replace_validation _ (by decide) rfl).1 (by decide)
  · exact (c6_edit_replace_validation _ (by decide) rfl).2 rfl (by decide)

/-- Helper: the edit_file case either errors leaving the argument object
unchanged, or succeeds forwarding the (possibly defaulted) object. -/
theorem validateEditFile_shape (input : ToolInput) :
    (∃ e, validateEditFile input = (.error e, input)) ∨
    (∃ i2, validateEditFile input = (.ok (.editFileAct i2), i2)) := by
  unfold validateEditFile
  split_ifs <;> first
    | exact Or.inl ⟨_, rfl⟩
    | exact Or.inr ⟨_, rfl⟩

/-- Helper: a pair of a validation outcome and the untouched input has the
required error-or-success shape. -/
theorem pairShape (v : Except String ToolAction) (input : ToolInput) :
    (∃ e, (v, input) = ((.error e : Except String ToolAction), input)) ∨
    (∃ a i2, (v, input) = ((.ok a : Except String ToolAction), i2)) := by
  cases v with
  | error e => exact Or.inl ⟨e, rfl⟩
  | ok a => exact Or.inr ⟨a, input, rfl⟩

/-- Helper: the dispatcher either errors leaving the argument object
unchanged, or succeeds. -/
theorem executeTool_shape (name : String) (input : ToolInput) :
    (∃ e, executeTool name input = (.error e, input)) ∨
    (∃ a i2, executeTool name input = (.ok a, i2)) := by
  unfold executeTool
  split_ifs <;> first
    | exact pairShape _ input
    | exact Or.inl ⟨_, rfl⟩
    | exact (validateEditFile_shape input).imp (fun h => h)
        (fun h => ⟨_, h.choose, h.choose_spec⟩)

/-- C9: validation is deterministic and idempotent: a call that returns a
validation error (hence forwards no operation) leaves the argument object
untouched, and an identical second call returns the identical error, again
forwarding nothing. -/
theorem c9_dispatch_idempotent :
    ∀ (name : String) (input : ToolInput) (e : String) (input2 : ToolInput),
      executeTool name input = (.error e, input2) →
      input2 = input ∧ executeTool name input2 = (.error e, input2) := by
  intro name input e input2 h
  rcases executeTool_shape name input with ⟨e', he⟩ | ⟨a, i2, ha⟩
  · rw [h] at he
    have heq : input2 = input := congrArg Prod.snd he
    subst heq
    exact ⟨rfl, h⟩
  · rw [h] at ha
    exact absurd (congrArg Prod.fst ha) (by simp)

set_option maxRecDepth 2000 in
/-- C9 witness: an out-of-range timeout yields the same validation error on
both invocations with no operation forwarded. -/
theorem c9_witness :
    ({ command := some "ls", timeout_seconds := some 900 } : ToolInput) =
      { command := some "ls", timeout_seconds := some 900 } ∧
    executeTool "run_command" { command := some "ls", timeout_seconds := some 900 } =
      (.error "run_command timeout_seconds must be between 1 and 600 seconds",
       { command := some "ls", timeout_seconds := some 900 }) := by
  have h := c9_dispatch_idempotent "run_command"
    { command := some "ls", timeout_seconds := some 900 }
    "run_command timeout_seconds must be between 1 and 600 seconds"
    { command := some "ls", timeout_seconds := some 900 } rfl
  exact ⟨h.1, h.2⟩

/-- Helper: a needle containing a character the haystack avoids is not a
substring of it. -/
theorem containsSub_forbidden (needle : List Char) (c0 : Char) (hn : c0 ∈ needle) :
    ∀ hay : List Char, c0 ∉ hay → containsSub needle hay = false := by
  intro hay
  induction hay with
  | nil =>
    intro hh
    have h1 : needle.isPrefixOf ([] : List Char) = false := by
      cases hp : needle.isPrefixOf ([] : List Char)
      · rfl
      · exact absurd ((List.isPrefixOf_iff_prefix.mp hp).subset hn) hh
    simpa [containsSub] using h1
  | cons c rest ih =>
    intro hh
    have h1 : needle.isPrefixOf (c :: rest) = false := by
      cases hp : needle.isPrefixOf (c :: rest)
      · rfl
      · exact absurd ((List.isPrefixOf_iff_prefix.mp hp).subset hn) hh
    have h2 := ih (fun hmem => hh (List.mem_cons_of_mem c hmem))
    simp [containsSub, h1, h2]

/-- Helper: substring containment is preserved by prepending text. -/
theorem containsSub_append_right (needle y : List Char) (h : containsSub needle y = true) :
    ∀ x : List Char, containsSub needle (x ++ y) = true := by
  intro x
  induction x with
  | nil => simpa using h
  | cons c x2 ih => simp [containsSub, ih]

/-- Helper: a prefix is a substring. -/
theorem containsSub_of_isPrefixOf (needle s : List Char) (h : needle.isPrefixOf s = true) :
    containsSub needle s = true := by
  cases s with
  | nil => simpa [containsSub] using h
  | cons c rest => simp [containsSub, h]

/-- Helper: a needle longer than the haystack is never contained. -/
theorem containsSub_of_short (needle s : List Char) (h : s.length < needle.length) :
    containsSub needle s = false := by
  induction s with
  | nil =>
    cases needle with
    | nil => simp at h
    | cons a n2 => simp [containsSub, List.isPrefixOf]
  | cons c rest ih =>
    have h1 : needle.isPrefixOf (c :: rest) = false := by
      cases hp : needle.isPrefixOf (c :: rest)
      · rfl
      · exfalso
        have hle := (List.isPrefixOf_iff_prefix.mp hp).length_le
        simp [List.length_cons] at hle h
        omega
    have h2 : containsSub needle rest = false := by
      refine ih ?_
      simp [List.length_cons] at h
      omega
    simp [containsSub, h1, h2]

/-- Helper: the run_command truncation branch for a long result without the
"ERROR"/"error" substrings keeps only the first 2000 characters plus a note. -/
theorem truncate_runCommand_long (result : String)
    (hlen : MAX_TOOL_RESULT_LENGTH < result.length)
    (hE : strIncludes result "ERROR" = false) (he : strIncludes result "error" = false) :
    truncateToolResult true result "run_command" =
      jsSubstring result 0 MAX_TOOL_RESULT_LENGTH ++
        "\n\n... [output truncated for token efficiency] ..." := by
  have hrc : truncateToolResult true result "run_command" =
      if (true : Bool) = false ∨ result.length ≤ MAX_TOOL_RESULT_LENGTH then result
      else if strIncludes result "ERROR" || strIncludes result "error" then result
      else jsSubstring result 0 MAX_TOOL_RESULT_LENGTH ++
        "\n\n... [output truncated for token efficiency] ..." := rfl
  have h1 : ¬((true : Bool) = false ∨ result.length ≤ MAX_TOOL_RESULT_LENGTH) := by
    simp [Nat.not_le.mpr hlen]
  have h2 : ¬((strIncludes result "ERROR" || strIncludes result "error") = true) := by
    simp [hE, he]
  rw [hrc, if_neg h1, if_neg h2]

/-- The stderr stream of the C4 counterexample: 2100 characters, containing
neither "ERROR" nor "error". -/
def c4Stderr : String := ⟨List.replicate 2100 'y'⟩

/-- The failed-command result string of the C4 counterexample. -/
def c4FailedOutput : String :=
  commandFailedMsg "make build" "" c4Stderr (some 2)

/-- Helper: the stderr block of the counterexample, at the character level. -/
theorem c4Stderr_data : c4Stderr.data = List.replicate 2100 'y' := rfl

/-- Helper: the character-level decomposition of `c4FailedOutput`. -/
theorem c4FailedOutput_data :
    c4FailedOutput.data =
      "❌ Command failed: ".data ++ ("make build".data ++ ("\n".data ++ ("".data ++
        (("\nSTDERR:\n".data ++ c4Stderr.data) ++
          ("\nExit Code: ".data ++ (toString (2 : Int)).data))))) := by
  have h1 : (("" : String) != "") = false := by decide
  have h2 : (c4Stderr != "") = true := by decide
  simp only [c4FailedOutput, commandFailedMsg, h1, h2, Bool.false_eq_true,
    if_false, if_true, String.data_append, List.append_assoc]

set_option maxRecDepth 2000 in
/-- C4 counterexample: a command that exits non-zero produces a result
carrying its stderr stream in full, yet `truncateToolResult` (its substring
heuristic not firing: the result contains neither "ERROR" nor "error") cuts
the result to its first 2000 characters, and the stderr stream is no longer
contained in what survives — refuting "stderr content is never discarded". -/
theorem c4_counterexample :
    (runCommand "/repo" { command := some "make build" }
      (.err false "" c4Stderr (some 2))).1 = .ok c4FailedOutput ∧
    strIncludes c4FailedOutput c4Stderr = true ∧
    strIncludes (truncateToolResult true c4FailedOutput "run_command") c4Stderr = false := by
  have hlen : c4FailedOutput.data.length = 2151 := by
    rw [c4FailedOutput_data, c4Stderr_data]
    simp only [List.length_append, List.length_replicate]
    decide
  have hE : strIncludes c4FailedOutput "ERROR" = false := by
    show containsSub "ERROR".data c4FailedOutput.data = false
    refine containsSub_forbidden "ERROR".data 'O' (by decide) _ ?_
    intro hmem
    rw [c4FailedOutput_data, c4Stderr_data] at hmem
    simp only [List.mem_append, List.mem_replicate] at hmem
    revert hmem
    decide
  have he : strIncludes c4FailedOutput "error" = false := by
    show containsSub "error".data c4FailedOutput.data = false
    refine containsSub_forbidden "error".data 'r' (by decide) _ ?_
    intro hmem
    rw [c4FailedOutput_data, c4Stderr_data] at hmem
    simp only [List.mem_append, List.mem_replicate] at hmem
    revert hmem
    decide
  have hlong : MAX_TOOL_RESULT_LENGTH < c4FailedOutput.length := by
    show MAX_TOOL_RESULT_LENGTH < c4FailedOutput.data.length
    rw [hlen]
    decide
  refine ⟨rfl, ?_, ?_⟩
  · show containsSub c4Stderr.data c4FailedOutput.data = true
    rw [c4FailedOutput_data]
    refine containsSub_append_right _ _ ?_ _
    refine containsSub_append_right _ _ ?_ _
    refine containsSub_append_right _ _ ?_ _
    refine containsSub_append_right _ _ ?_ _
    rw [List.append_assoc]
    refine containsSub_append_right _ _ ?_ _
    exact containsSub_of_isPrefixOf _ _
      (List.isPrefixOf_iff_prefix.mpr (List.prefix_append _ _))
  · have htr := truncate_runCommand_long c4FailedOutput hlong hE he
    rw [htr]
    show containsSub c4Stderr.data
      ((jsSubstring c4FailedOutput 0 MAX_TOOL_RESULT_LENGTH ++
        "\n\n... [output truncated for token efficiency] ...").data) = false
    refine containsSub_of_short _ _ ?_
    have hd : (jsSubstring c4FailedOutput 0 MAX_TOOL_RESULT_LENGTH ++
        "\n\n... [output truncated for token efficiency] ...").data =
        ((c4FailedOutput.data.drop 0).take 2000) ++
          "\n\n... [output truncated for token efficiency] ...".data := rfl
    have hnl : c4Stderr.data.length = 2100 := by
      rw [c4Stderr_data, List.length_replicate]
    rw [hd]
    simp only [List.length_append, List.length_take, List.length_drop, hlen, hnl]
    decide

set_option maxRecDepth 2000 in
/-- C4 amended: truncation of a run_command result keeps it whole when it is
within the length cap or contains "ERROR" or "error"; otherwise it keeps
only the first 2000 characters plus a note (so a failed command's stderr
survives only through that substring heuristic); and truncation never
touches the success/failure flag: the flag of a tool outcome is decided
solely by whether the dispatched call threw, truncation applying only to
the content of non-thrown results. -/
theorem c4_truncation_policy :
    ∀ (result toolName : String) (optimize : Bool)
      (exec : String → ToolInput → Except String String)
      (id nm : String) (input : ToolInput) (r m : String),
      (result.length ≤ MAX_TOOL_RESULT_LENGTH →
        truncateToolResult true result toolName = result) ∧
      ((strIncludes result "ERROR" = true ∨ strIncludes result "error" = true) →
        truncateToolResult true result "run_command" = result) ∧
      (MAX_TOOL_RESULT_LENGTH < result.length → strIncludes result "ERROR" = false →
        strIncludes result "error" = false →
        truncateToolResult true result "run_command" =
          jsSubstring result 0 MAX_TOOL_RESULT_LENGTH ++
            "\n\n... [output truncated for token efficiency] ...") ∧
      (exec nm input = .ok r →
        toolResultBlock optimize exec (id, nm, input) =
          .toolResult id (truncateToolResult optimize r nm) false) ∧
      (exec nm input = .error m →
        toolResultBlock optimize exec (id, nm, input) =
          .toolResult id ("Error: " ++ m) true) := by
  intro result toolName optimize exec id nm input r m
  have hrc : truncateToolResult true result "run_command" =
      if (true : Bool) = false ∨ result.length ≤ MAX_TOOL_RESULT_LENGTH then result
      else if strIncludes result "ERROR" || strIncludes result "error" then result
      else jsSubstring result 0 MAX_TOOL_RESULT_LENGTH ++
        "\n\n... [output truncated for token efficiency] ..." := rfl
  refine ⟨?_, ?_, ?_, ?_, ?_⟩
  · intro h
    simp [truncateToolResult, h]
  · intro h
    rw [hrc]
    rcases h with h | h <;> split_ifs <;> simp_all
  · intro hlen hE he
    exact truncate_runCommand_long result hlen hE he
  · intro h
    simp [toolResultBlock, h]
  · intro h
    simp [toolResultBlock, h]

/-- A long run_command result that does contain "error". -/
def c4ErrLong : String := (⟨List.replicate 2100 'x'⟩ : String) ++ "error"

/-- A long run_command result containing neither "ERROR" nor "error". -/
def c4PlainLong : String := ⟨List.replicate 2100 'y'⟩

set_option maxRecDepth 2000 in
/-- C4 witness: concrete instances of each branch of the amended truncation
policy. -/
theorem c4_witness :
    truncateToolResult true "done" "run_command" = "done" ∧
    truncateToolResult true c4ErrLong "run_command" = c4ErrLong ∧
    truncateToolResult true c4PlainLong "run_command" =
      jsSubstring c4PlainLong 0 MAX_TOOL_RESULT_LENGTH ++
        "\n\n... [output truncated for token efficiency] ..." ∧
    toolResultBlock true (fun _ _ => .ok "done") ("id1", "run_command", {}) =
      .toolResult "id1" (truncateToolResult true "done" "run_command") false ∧
    toolResultBlock true (fun _ _ => .error "ENOENT") ("id2", "read_file", {}) =
      .toolResult "id2" ("Error: " ++ "ENOENT") true := by
  have hinc : strIncludes c4ErrLong "error" = true := by
    show containsSub "error".data c4ErrLong.data = true
    have hd : c4ErrLong.data = List.replicate 2100 'x' ++ "error".data := rfl
    rw [hd]
    exact containsSub_append_right _ _ (by decide) _
  have hdp : c4PlainLong.data = List.replicate 2100 'y' := rfl
  have hlenp : MAX_TOOL_RESULT_LENGTH < c4PlainLong.length := by
    show MAX_TOOL_RESULT_LENGTH < c4PlainLong.data.length
    rw [hdp, List.length_replicate]
    decide
  have hEp : strIncludes c4PlainLong "ERROR" = false := by
    show containsSub "ERROR".data c4PlainLong.data = false
    rw [hdp]
    refine containsSub_forbidden _ 'E' (by decide) _ ?_
    intro hmem
    simp only [List.mem_replicate] at hmem
    revert hmem
    decide
  have hep : strIncludes c4PlainLong "error" = false := by
    show containsSub "error".data c4PlainLong.data = false
    rw [hdp]
    refine containsSub_forbidden _ 'e' (by decide) _ ?_
    intro hmem
    simp only [List.mem_replicate] at hmem
    revert hmem
    decide
  refine ⟨?_, ?_, ?_, ?_, ?_⟩
  · exact (c4_truncation_policy "done" "run_command" true (fun _ _ => .ok "")
      "" "" {} "" "").1 (by decide)
  · exact (c4_truncation_policy c4ErrLong "run_command" true (fun _ _ => .ok "")
      "" "" {} "" "").2.1 (Or.inr hinc)
  · exact (c4_truncation_policy c4PlainLong "run_command" true (fun _ _ => .ok "")
      "" "" {} "" "").2.2.1 hlenp hEp hep
  · exact (c4_truncation_policy "" "" true (fun _ _ => .ok "done")
      "id1" "run_command" {} "done" "").2.2.2.1 rfl
  · exact (c4_truncation_policy "" "" true (fun _ _ => .error "ENOENT")
      "id2" "read_file" {} "" "ENOENT").2.2.2.2 rfl

/-- Helper: the last element of a list extended by one element. -/
theorem getLast?_append_singleton {α : Type} (l : List α) (a : α) :
    (l ++ [a]).getLast? = some a := by
  induction l with
  | nil => rfl
  | cons x xs ih =>
    rw [List.cons_append, List.getLast?_cons]
    simp [ih]

/-- Helper: the last-message substring check after pushing one instruction
turn sees exactly that turn's text. -/
theorem lastContentIncludes_push (st : AgentState) (s needle : String) :
    lastContentIncludes (pushUser st s).messages needle = strIncludes s needle := by
  unfold lastContentIncludes pushUser
  simp only [getLast?_append_singleton]
  rfl

/-- C3: before transmission the (possibly trimmed) turn list is validated;
an orphaned tool_result (an id matching no tool_use in the list, which is
exactly when `validateToolPairs` reports false) resets the transmitted list
to just the original first turn, and the outbound request carries exactly
this prepared list. -/
theorem c3_validation_guard :
    ∀ msgs : List Message,
      (validateToolPairs (trimConversationHistory true msgs) = false →
        prepareOutbound true msgs = msgs.take 1) ∧
      (validateToolPairs (trimConversationHistory true msgs) = true →
        prepareOutbound true msgs = trimConversationHistory true msgs) ∧
      (∀ st : AgentState,
        (buildRequest true st).sentMessages = prepareOutbound true st.messages) ∧
      (validateToolPairs msgs = false ↔
        ∃ t ∈ allResultIds msgs, (allUseIds msgs).contains t = false) := by
  intro msgs
  refine ⟨?_, ?_, fun st => rfl, ?_, ?_⟩
  · intro h
    simp [prepareOutbound, h]
  · intro h
    simp [prepareOutbound, h]
  · intro h
    by_contra hc
    push_neg at hc
    have hall : validateToolPairs msgs = true := by
      unfold validateToolPairs
      rw [List.all_eq_true]
      intro t ht
      cases hco : (allUseIds msgs).contains t with
      | false => exact absurd hco (hc t ht)
      | true => rfl
    rw [hall] at h
    exact Bool.noConfusion h
  · rintro ⟨t, ht, hf⟩
    unfold validateToolPairs
    cases hv : (allResultIds msgs).all (fun t => (allUseIds msgs).contains t) with
    | false => rfl
    | true =>
      rw [List.all_eq_true] at hv
      have := hv t ht
      rw [hf] at this
      exact Bool.noConfusion this

/-- The C3 witness conversation: its second turn carries a tool_result whose
id matches no tool_use anywhere. -/
def c3Msgs : List Message :=
  [⟨.user, .str "task"⟩, ⟨.user, .blocks [.toolResult "orphan" "x" false]⟩]

/-- C3 witness: the orphaned outcome makes the guard reset the transmitted
list to the original task turn alone. -/
theorem c3_witness :
    validateToolPairs (trimConversationHistory true c3Msgs) = false ∧
    prepareOutbound true c3Msgs = c3Msgs.take 1 := by
  refine ⟨by decide, (c3_validation_guard c3Msgs).1 (by decide)⟩

/-- Helper: the tool list of a built request is gated by `planApproved`. -/
theorem buildRequest_tools (optimize : Bool) (st : AgentState) :
    (buildRequest optimize st).toolsProvided =
      if st.planApproved then toolCatalogNames else [] := rfl

/-- Helper: the property each logged (planApproved, request) pair satisfies. -/
theorem requestPair_spec (optimize : Bool) (st : AgentState) :
    ((st.planApproved = false → (buildRequest optimize st).toolsProvided = []) ∧
     (st.planApproved = true → (buildRequest optimize st).toolsProvided = toolCatalogNames) ∧
     toolCatalogNames ≠ []) := by
  refine ⟨?_, ?_, by decide⟩
  · intro h1
    rw [buildRequest_tools, h1]
    rfl
  · intro h1
    rw [buildRequest_tools, h1]
    rfl

/-- C1: over any run of the loop, every outbound request issued while the
plan is not approved carries the empty tool list, every request issued
after approval carries the full (non-empty) tool catalog. -/
theorem c1_plan_gate_tools :
    ∀ (ep : String → Option String) (optimize : Bool) (env : Nat → IterInput)
      (fuel : Nat) (st : AgentState) (pr : Bool × ModelRequest),
      pr ∈ (runAux ep optimize env fuel st).requests →
      ((pr.1 = false → pr.2.toolsProvided = []) ∧
       (pr.1 = true → pr.2.toolsProvided = toolCatalogNames) ∧
       toolCatalogNames ≠ []) := by
  intro ep optimize env fuel
  induction fuel with
  | zero =>
    intro st pr hpr
    simp [runAux] at hpr
  | succ n ih =>
    intro st pr hpr
    simp only [runAux] at hpr
    split at hpr
    · rcases List.mem_cons.mp hpr with hhd | htl
      · subst hhd
        exact requestPair_spec optimize _
      · exact ih _ pr htl
    · rcases List.mem_singleton.mp hpr with hhd
      subst hhd
      exact requestPair_spec optimize _
    · rcases List.mem_singleton.mp hpr with hhd
      subst hhd
      exact requestPair_spec optimize _

/-- The C1 witness environment: text-only responses, never approving. -/
def c1Env : Nat → IterInput :=
  fun _ => ⟨[.text "hi"], .cancelled, fun _ _ => .ok ""⟩

/-- C1 witness: the first request of a fresh run is logged pre-approval and
carries the empty tool list. -/
theorem c1_witness :
    (((false, (⟨[⟨.user, .str "t"⟩], []⟩ : ModelRequest)) : Bool × ModelRequest) ∈
      (runAux (fun _ => none) true c1Env 1 (initialState "t")).requests) ∧
    (⟨[⟨.user, .str "t"⟩], []⟩ : ModelRequest).toolsProvided = [] := by
  have hm : ((false, (⟨[⟨.user, .str "t"⟩], []⟩ : ModelRequest)) : Bool × ModelRequest) ∈
      (runAux (fun _ => none) true c1Env 1 (initialState "t")).requests := by decide
  exact ⟨hm, (c1_plan_gate_tools (fun _ => none) true c1Env 1 (initialState "t") _ hm).1 rfl⟩

/-- C5: in the approved state a response without tool invocations concludes
the task, except when the last turn is the plan-approval instruction (true
exactly on the very first post-approval response): then a corrective
instruction turn is injected and the loop continues, and since the
corrective turn does not contain the marker, the next tool-free response
concludes; the approval transition itself always leaves the marker turn
last. -/
theorem c5_first_post_approval :
    (∀ (ep : String → Option String) (optimize : Bool) (st : AgentState) (inp : IterInput),
      st.planApproved = true → toolUsesOf inp.response = [] →
      ((lastContentIncludes st.messages planApprovedMarker = true →
         stepCore ep optimize st inp = (pushUser st correctiveMsg, .next) ∧
         lastContentIncludes (pushUser st correctiveMsg).messages planApprovedMarker = false) ∧
       (lastContentIncludes st.messages planApprovedMarker = false →
         stepCore ep optimize st inp = (st, .completed)))) ∧
    (∀ (ep : String → Option String) (optimize : Bool) (st : AgentState) (inp : IterInput)
      (p : String) (np : Option String),
      st.planApproved = false → textsOf inp.response ≠ [] →
      ep (String.intercalate "\n" (textsOf inp.response)) = some p →
      inp.approval = .approve np →
      ((stepCore ep optimize st inp).1.planApproved = true ∧
       lastContentIncludes (stepCore ep optimize st inp).1.messages planApprovedMarker = true)) := by
  constructor
  · intro ep optimize st inp hpa hno
    constructor
    · intro hm
      constructor
      · simp [stepCore, stepTools, hpa, hno, hm, pushUser]
      · rw [lastContentIncludes_push]
        decide
    · intro hm
      simp [stepCore, stepTools, hpa, hno, hm]
  · intro ep optimize st inp p np hpa htexts hep happ
    have hne : (textsOf inp.response).isEmpty = false := by
      cases h : textsOf inp.response with
      | nil => exact absurd h htexts
      | cons a l => rfl
    cases np with
    | none =>
      have hstep : stepCore ep optimize st inp =
          ({ st with
              messages := st.messages ++ [⟨.user, .str approvedMsg⟩],
              planApproved := true }, .next) := by
        simp [stepCore, stepPlan, hpa, hne, hep, happ]
      rw [hstep]
      refine ⟨rfl, ?_⟩
      show lastContentIncludes (st.messages ++ [⟨.user, .str approvedMsg⟩]) planApprovedMarker = true
      unfold lastContentIncludes
      rw [getLast?_append_singleton]
      decide
    | some p2 =>
      have hstep : stepCore ep optimize st inp =
          ({ st with
              messages := st.messages ++ [⟨.user, .str (approvedNewPlanMsg p2)⟩],
              planApproved := true }, .next) := by
        simp [stepCore, stepPlan, hpa, hne, hep, happ]
      rw [hstep]
      refine ⟨rfl, ?_⟩
      show lastContentIncludes (st.messages ++ [⟨.user, .str (approvedNewPlanMsg p2)⟩])
        planApprovedMarker = true
      unfold lastContentIncludes
      rw [getLast?_append_singleton]
      show strIncludes (approvedNewPlanMsg p2) planApprovedMarker = true
      show containsSub planApprovedMarker.data (approvedNewPlanMsg p2).data = true
      have hd : (approvedNewPlanMsg p2).data =
          ("Please follow this plan instead:\n\n".data ++ p2.data) ++
            "\n\nPlan is APPROVED. Start executing it now using the available tools. Do NOT create another plan.".data := rfl
      rw [hd]
      exact containsSub_append_right _ _ (by decide) _

/-- The C5 witness state: plan just approved, the approval instruction turn
standing last. -/
def c5State : AgentState :=
  ⟨[⟨.user, .str "task"⟩, ⟨.user, .str approvedMsg⟩], 2, 0, true⟩

/-- The C5 witness first response: text only, no tool use. -/
def c5Input1 : IterInput :=
  ⟨[.text "I will re-explain the plan"], .cancelled, fun _ _ => .ok ""⟩

/-- The C5 witness second response: again text only. -/
def c5Input2 : IterInput :=
  ⟨[.text "done"], .cancelled, fun _ _ => .ok ""⟩

/-- C5 witness: a tool-free first post-approval response triggers the
corrective turn, and the state after it concludes on the next tool-free
response. -/
theorem c5_witness :
    stepCore (fun _ => none) true c5State c5Input1 =
      (pushUser c5State correctiveMsg, .next) ∧
    stepCore (fun _ => none) true (pushUser c5State correctiveMsg) c5Input2 =
      (pushUser c5State correctiveMsg, .completed) := by
  have h1 := ((c5_first_post_approval.1 (fun _ => none) true c5State
    c5Input1 rfl rfl).1 (by decide))
  refine ⟨h1.1, ?_⟩
  exact (c5_first_post_approval.1 (fun _ => none) true (pushUser c5State correctiveMsg)
    c5Input2 rfl rfl).2 h1.2

/-- The dispatch bridge of the C7 counterexample: validation through
`executeTool`, the run_command operation answered by a subprocess that
exits 1 with "boom" on stderr. -/
def c7Exec : String → ToolInput → Except String String := fun nm inp =>
  match (executeTool nm inp).1 with
  | .error e => .error e
  | .ok (.runCommandAct i) => (runCommand "/repo" i (.err false "" "boom" (some 1))).1
  | .ok _ => .ok "ok"

/-- The C7 state: plan approved, mid-execution. -/
def c7State : AgentState :=
  ⟨[⟨.user, .str "task"⟩, ⟨.user, .str approvedMsg⟩], 2, 0, true⟩

/-- The C7 counterexample iteration input: one run_command invocation. -/
def c7CInput : IterInput :=
  ⟨[.toolUse "toolu_1" "run_command" { command := some "false" }], .cancelled, c7Exec⟩

/-- The C7 witness iteration input: one read_file invocation whose
operation throws. -/
def c7WInput : IterInput :=
  ⟨[.toolUse "t1" "read_file" { path := some "a" }], .cancelled,
    fun _ _ => .error "Failed to read file: ENOENT"⟩

/-- C7 counterexample: a run_command invocation whose subprocess exits with
status 1 yields a tool outcome whose is_error flag is NOT set (the failure
is returned as an ordinary result string), refuting "a command exiting with
non-zero status is converted into a tool outcome marked failed". -/
theorem c7_counterexample :
    (stepCore (fun _ => none) true c7State c7CInput).1.messages.getLast? =
      some ⟨.user, .blocks [.toolResult "toolu_1"
        "❌ Command failed: false\n\nSTDERR:\nboom\nExit Code: 1" false]⟩ ∧
    (stepCore (fun _ => none) true c7State c7CInput).2 = .next := by
  exact ⟨by decide, by decide⟩

/-- C7 amended: a dispatched tool call that throws (file not found,
permission denied, pattern not matched, timeout) is caught and appended as
a tool outcome with is_error set, and the loop continues; a run_command
whose subprocess exits non-zero instead returns (does not throw) the
"Command failed" result string, so its outcome is appended unflagged, the
loop again continuing. -/
theorem c7_operation_errors :
    ∀ (ep : String → Option String) (optimize : Bool) (st : AgentState)
      (inp : IterInput) (id nm : String) (input : ToolInput) (m : String),
      st.planApproved = true →
      inp.response = [Block.toolUse id nm input] →
      ((inp.exec nm input = .error m →
        (stepCore ep optimize st inp).1.messages.getLast? =
          some ⟨.user, .blocks [.toolResult id ("Error: " ++ m) true]⟩ ∧
        (stepCore ep optimize st inp).2 = .next) ∧
       (∀ r, inp.exec nm input = .ok r →
        (stepCore ep optimize st inp).1.messages.getLast? =
          some ⟨.user, .blocks [.toolResult id (truncateToolResult optimize r nm) false]⟩ ∧
        (stepCore ep optimize st inp).2 = .next) ∧
       (∀ (cwd0 stdout stderr : String) (c : Int) (args : ToolInput),
        (assessCommandRisk (args.command.getD "") == RiskLevel.high &&
          !truthyBool args.approve_risky) = false →
        runCommand cwd0 args (.err false stdout stderr (some c)) =
          (.ok (commandFailedMsg (args.command.getD "") stdout stderr (some c)), true))) := by
  intro ep optimize st inp id nm input m hpa hresp
  have hstep : stepCore ep optimize st inp =
      ({ st with
          messages := (st.messages ++ [⟨.assistant, .blocks inp.response⟩]) ++
            [⟨.user, .blocks [toolResultBlock optimize inp.exec (id, nm, input)]⟩],
          actionCount := st.actionCount + 1 }, .next) := by
    simp [stepCore, stepTools, hpa, hresp, textsOf, toolUsesOf]
  refine ⟨?_, ?_, ?_⟩
  · intro hexec
    rw [hstep]
    refine ⟨?_, rfl⟩
    simp only [getLast?_append_singleton]
    simp [toolResultBlock, hexec]
  · intro r hexec
    rw [hstep]
    refine ⟨?_, rfl⟩
    simp only [getLast?_append_singleton]
    simp [toolResultBlock, hexec]
  · intro cwd0 stdout stderr c args hgate
    simp [runCommand, hgate]

/-- C7 witness: a thrown read error is flagged is_error and the loop
continues; a non-zero exit yields the unflagged "Command failed" string. -/
theorem c7_witness :
    ((stepCore (fun _ => none) true c7State c7WInput).1.messages.getLast? =
      some ⟨.user, .blocks [.toolResult "t1" ("Error: " ++ "Failed to read file: ENOENT") true]⟩ ∧
     (stepCore (fun _ => none) true c7State c7WInput).2 = .next) ∧
    runCommand "/repo" { command := some "false" } (.err false "" "boom" (some 1)) =
      (.ok (commandFailedMsg "false" "" "boom" (some 1)), true) := by
  have h := c7_operation_errors (fun _ => none) true c7State c7WInput
    "t1" "read_file" { path := some "a" } "Failed to read file: ENOENT" rfl rfl
  exact ⟨h.1 rfl, h.2.2 "/repo" "" "boom" 1 { command := some "false" } (by decide)⟩

/-- Helper: the planning phase never changes the iteration counter. -/
theorem stepPlan_iterationCount (st : AgentState) (a : ApprovalResult) (p : Option String) :
    ((stepPlan st a p).1).iterationCount = st.iterationCount := by
  rcases p with _ | pp
  · simp [stepPlan, pushUser]
  · rcases a with np | fb | _
    · rcases np with _ | q <;> simp [stepPlan, pushUser]
    · simp [stepPlan, pushUser]
    · simp [stepPlan]

/-- Helper: the planning phase never changes the action counter. -/
theorem stepPlan_actionCount (st : AgentState) (a : ApprovalResult) (p : Option String) :
    ((stepPlan st a p).1).actionCount = st.actionCount := by
  rcases p with _ | pp
  · simp [stepPlan, pushUser]
  · rcases a with np | fb | _
    · rcases np with _ | q <;> simp [stepPlan, pushUser]
    · simp [stepPlan, pushUser]
    · simp [stepPlan]

/-- Helper: the tool phase never changes the iteration counter. -/
theorem stepTools_iterationCount (optimize : Bool) (st : AgentState) (inp : IterInput) :
    ((stepTools optimize st inp).1).iterationCount = st.iterationCount := by
  unfold stepTools
  split
  · simp [pushUser]
  · split
    · split
      · simp [pushUser]
      · simp
    · split
      · simp [pushUser]
      · simp

/-- Helper: the tool phase never changes the approval flag. -/
theorem stepTools_planApproved (optimize : Bool) (st : AgentState) (inp : IterInput) :
    ((stepTools optimize st inp).1).planApproved = st.planApproved := by
  unfold stepTools
  split
  · simp [pushUser]
  · split
    · split
      · simp [pushUser]
      · simp
    · split
      · simp [pushUser]
      · simp

/-- Helper: in the tool phase with the plan unapproved no tool is
dispatched (the action counter cannot move). -/
theorem stepTools_actions_unapproved (optimize : Bool) (st : AgentState) (inp : IterInput)
    (h : st.planApproved = false) :
    ((stepTools optimize st inp).1).actionCount = st.actionCount := by
  unfold stepTools
  split
  · simp [pushUser]
  · split
    · split
      · simp [pushUser]
      · simp
    · split
      · simp [pushUser]
      · simp_all [pushUser]

/-- Helper: one iteration body never changes the iteration counter. -/
theorem stepCore_iterationCount (ep : String → Option String) (optimize : Bool)
    (st : AgentState) (inp : IterInput) :
    ((stepCore ep optimize st inp).1).iterationCount = st.iterationCount := by
  unfold stepCore
  split
  · exact stepPlan_iterationCount _ _ _
  · exact stepTools_iterationCount _ _ _

/-- Helper: once the plan is approved it stays approved. -/
theorem stepCore_approved_mono (ep : String → Option String) (optimize : Bool)
    (st : AgentState) (inp : IterInput) (h : st.planApproved = true) :
    ((stepCore ep optimize st inp).1).planApproved = true := by
  unfold stepCore
  simp only [h]
  rw [if_neg]
  · rw [stepTools_planApproved]
    exact h
  · simp

/-- Helper: while the plan is not approved, no tool is dispatched (the
action counter cannot move). -/
theorem stepCore_actions_unapproved (ep : String → Option String) (optimize : Bool)
    (st : AgentState) (inp : IterInput) (h : st.planApproved = false) :
    ((stepCore ep optimize st inp).1).actionCount = st.actionCount := by
  unfold stepCore
  split
  · exact stepPlan_actionCount _ _ _
  · exact stepTools_actions_unapproved _ _ _ h

/-- Helper: the number of model calls of a run is bounded by the fuel. -/
theorem runAux_requests_le (ep : String → Option String) (optimize : Bool)
    (env : Nat → IterInput) :
    ∀ (fuel : Nat) (st : AgentState),
      (runAux ep optimize env fuel st).requests.length ≤ fuel := by
  intro fuel
  induction fuel with
  | zero => intro st; simp [runAux]
  | succ n ih =>
    intro st
    simp only [runAux]
    split
    · simpa using Nat.succ_le_succ (ih _)
    · simp
    · simp

/-- Helper: exhausting the fuel leaves the counter advanced by exactly the
fuel. -/
theorem runAux_max_count (ep : String → Option String) (optimize : Bool)
    (env : Nat → IterInput) :
    ∀ (fuel : Nat) (st : AgentState),
      (runAux ep optimize env fuel st).exit = .maxIterations →
      (runAux ep optimize env fuel st).finalState.iterationCount =
        st.iterationCount + fuel := by
  intro fuel
  induction fuel with
  | zero => intro st _; simp [runAux]
  | succ n ih =>
    intro st hexit
    simp only [runAux] at hexit ⊢
    split at hexit <;> simp_all
    have hs : (stepBody ep optimize
        { st with iterationCount := st.iterationCount + 1 }
        (env st.iterationCount)).state.iterationCount = st.iterationCount + 1 :=
      stepCore_iterationCount ep optimize _ _
    rw [hs]
    omega

/-- Helper: approval is monotone along a run. -/
theorem runAux_approved_mono (ep : String → Option String) (optimize : Bool)
    (env : Nat → IterInput) :
    ∀ (fuel : Nat) (st : AgentState), st.planApproved = true →
      (runAux ep optimize env fuel st).finalState.planApproved = true := by
  intro fuel
  induction fuel with
  | zero => intro st h; simpa [runAux] using h
  | succ n ih =>
    intro st h
    simp only [runAux]
    split
    · exact ih _ (stepCore_approved_mono ep optimize _ _ (by simpa using h))
    · exact stepCore_approved_mono ep optimize _ _ (by simpa using h)
    · exact stepCore_approved_mono ep optimize _ _ (by simpa using h)

/-- Helper: the state produced by stepBody is the first component of stepCore. -/
theorem stepBody_state (ep : String → Option String) (optimize : Bool)
    (st : AgentState) (inp : IterInput) :
    (stepBody ep optimize st inp).state = (stepCore ep optimize st inp).1 := rfl

/-- Helper: a Bool that is not false is true. -/
theorem eqTrueOfNotEqFalse {b : Bool} (h : ¬ b = false) : b = true := by
  cases b
  · exact absurd rfl h
  · rfl

/-- Helper: a run ending unapproved never moved the action counter. -/
theorem runAux_actions_unapproved (ep : String → Option String) (optimize : Bool)
    (env : Nat → IterInput) :
    ∀ (fuel : Nat) (st : AgentState),
      (runAux ep optimize env fuel st).finalState.planApproved = false →
      (runAux ep optimize env fuel st).finalState.actionCount = st.actionCount := by
  intro fuel
  induction fuel with
  | zero => intro st _; simp [runAux]
  | succ n ih =>
    intro st hfin
    simp only [runAux] at hfin ⊢
    split at hfin <;> simp only at hfin
    · -- status next: the final state comes from the recursive run
      have h1 : (stepBody ep optimize
          { st with iterationCount := st.iterationCount + 1 }
          (env st.iterationCount)).state.planApproved = false := by
        by_contra hc
        have := runAux_approved_mono ep optimize env n _ (eqTrueOfNotEqFalse hc)
        rw [hfin] at this
        exact Bool.noConfusion this
      rw [stepBody_state] at h1 hfin ⊢
      have h0 : ({ st with iterationCount := st.iterationCount + 1 } :
          AgentState).planApproved = false := by
        by_contra hc
        have hmono := stepCore_approved_mono ep optimize
          { st with iterationCount := st.iterationCount + 1 } (env st.iterationCount)
          (eqTrueOfNotEqFalse hc)
        rw [h1] at hmono
        exact Bool.noConfusion hmono
      rw [ih _ hfin]
      exact stepCore_actions_unapproved ep optimize _ _ h0
    · -- status completed: the final state is the step state itself
      rw [stepBody_state] at hfin ⊢
      have h0 : ({ st with iterationCount := st.iterationCount + 1 } :
          AgentState).planApproved = false := by
        by_contra hc
        have hmono := stepCore_approved_mono ep optimize
          { st with iterationCount := st.iterationCount + 1 } (env st.iterationCount)
          (eqTrueOfNotEqFalse hc)
        rw [hfin] at hmono
        exact Bool.noConfusion hmono
      exact stepCore_actions_unapproved ep optimize _ _ h0
    · -- status cancelled: likewise
      rw [stepBody_state] at hfin ⊢
      have h0 : ({ st with iterationCount := st.iterationCount + 1 } :
          AgentState).planApproved = false := by
        by_contra hc
        have hmono := stepCore_approved_mono ep optimize
          { st with iterationCount := st.iterationCount + 1 } (env st.iterationCount)
          (eqTrueOfNotEqFalse hc)
        rw [hfin] at hmono
        exact Bool.noConfusion hmono
      exact stepCore_actions_unapproved ep optimize _ _ h0

/-- C8: every task invocation performs at most 15 model calls; a run that
stops because the fuel (the iteration ceiling) ran out has its counter at
exactly `MAX_ITERATIONS`, so the "maximum iterations" warning fires — and
the run ends by returning, there being no error exit; and a run that never
reached approval has executed no tool at all. -/
theorem c8_iteration_ceiling :
    ∀ (ep : String → Option String) (env : Nat → IterInput) (userMessage : String),
      (runAgent ep true env userMessage).requests.length ≤ MAX_ITERATIONS ∧
      ((runAgent ep true env userMessage).exit = .maxIterations →
        (runAgent ep true env userMessage).finalState.iterationCount = MAX_ITERATIONS ∧
        warnsMaxIterations (runAgent ep true env userMessage) = true) ∧
      ((runAgent ep true env userMessage).finalState.planApproved = false →
        (runAgent ep true env userMessage).finalState.actionCount = 0) := by
  intro ep env um
  refine ⟨runAux_requests_le ep true env MAX_ITERATIONS (initialState um), ?_, ?_⟩
  · intro h
    have hc := runAux_max_count ep true env MAX_ITERATIONS (initialState um) h
    have hc2 : (runAgent ep true env um).finalState.iterationCount = MAX_ITERATIONS := by
      simpa [runAgent, initialState] using hc
    refine ⟨hc2, ?_⟩
    simp [warnsMaxIterations, runAgent] at hc2 ⊢
    omega
  · intro h
    have := runAux_actions_unapproved ep true env MAX_ITERATIONS (initialState um) h
    simpa [runAgent, initialState] using this

/-- The C8 witness environment: the model keeps thinking aloud, no plan is
ever detected, the user never decides. -/
def c8Env : Nat → IterInput :=
  fun _ => ⟨[.text "let me think about this"], .cancelled, fun _ _ => .ok ""⟩

/-- C8 witness: a run that spends all 15 iterations awaiting a plan issues
at most 15 model calls, ends at the ceiling with the warning, and never
executed a tool. -/
theorem c8_witness :
    (runAgent (fun _ => none) true c8Env "do the task").exit = .maxIterations ∧
    (runAgent (fun _ => none) true c8Env "do the task").requests.length ≤ MAX_ITERATIONS ∧
    (runAgent (fun _ => none) true c8Env "do the task").finalState.iterationCount =
      MAX_ITERATIONS ∧
    warnsMaxIterations (runAgent (fun _ => none) true c8Env "do the task") = true ∧
    (runAgent (fun _ => none) true c8Env "do the task").finalState.actionCount = 0 := by
  have hex : (runAgent (fun _ => none) true c8Env "do the task").exit = .maxIterations := by
    decide
  have happ : (runAgent (fun _ => none) true c8Env "do the task").finalState.planApproved =
      false := by decide
  obtain ⟨h1, h2⟩ := (c8_iteration_ceiling (fun _ => none) c8Env "do the task").2.1 hex
  exact ⟨hex, (c8_iteration_ceiling (fun _ => none) c8Env "do the task").1, h1, h2,
    (c8_iteration_ceiling (fun _ => none) c8Env "do the task").2.2 happ⟩

/-! ### C2: history trimming never splits a matched tool pair -/

/-- Helper: membership in the right part of an append, for `contains`. -/
theorem listContains_append_right (a b : List String) (t : String)
    (h : b.contains t = true) : (a ++ b).contains t = true := by
  induction a with
  | nil => exact h
  | cons x xs ih => simpa [List.contains_cons] using Or.inr ih

/-- Helper: a list whose entry at `k` is `m` decomposes as `m` followed by
the drop at `k + 1`. -/
theorem drop_eq_cons_of_get (l : List Message) :
    ∀ (k : Nat) (m : Message), l.get? k = some m →
      l.drop k = m :: l.drop (k + 1) := by
  induction l with
  | nil => intro k m h; simp at h
  | cons a t ih =>
    intro k m h
    cases k with
    | zero => simp at h; simp [h]
    | succ j =>
      simp only [List.get?] at h
      simpa using ih j m h

/-- Helper: scanning a block list for a tool_result agrees with the result
id list being nonempty. -/
theorem anyResult_eq (bs : List Block) :
    (bs.any fun b => match b with
      | .toolResult _ _ _ => true | _ => false) =
      !(bs.flatMap blockResultIds).isEmpty := by
  induction bs with
  | nil => rfl
  | cons b t ih => cases b <;> simp [blockResultIds, List.any_cons, ih]

/-- Helper: a message holds a tool_result block exactly when its result id
list is nonempty. -/
theorem hasToolResultBlock_eq (m : Message) :
    hasToolResultBlock m = !(msgResultIds m).isEmpty := by
  unfold hasToolResultBlock msgResultIds
  cases m.content with
  | str s => rfl
  | blocks bs => exact anyResult_eq bs

/-- Helper: the trim loop leaves the accumulator alone once every remaining
index exceeds it. -/
theorem fold_trimStep_const (msgs : List Message) :
    ∀ (n start acc : Nat), acc + 1 ≤ start →
      (List.range' start n).foldl (trimStep msgs) acc = acc := by
  intro n
  induction n with
  | zero => intro start acc _; rfl
  | succ j ih =>
    intro start acc hle
    have hstep : trimStep msgs acc start = acc := by
      simp only [trimStep]
      split <;> split <;> omega
    rw [List.range'_succ, List.foldl_cons, hstep]
    exact ih (start + 1) acc (by omega)

/-- Helper: the final `keepFromIndex` is the initial one, lowered by one
exactly when the first scanned turn is a tool_result turn standing after an
assistant turn. -/
theorem trimKeepFrom_eq (msgs : List Message) (k0 : Nat) (h1 : 1 ≤ k0)
    (h2 : k0 < msgs.length) :
    trimKeepFrom msgs k0 =
      if trimCondResult msgs k0 then k0 - 1 else k0 := by
  obtain ⟨n, hn⟩ : ∃ n, msgs.length - k0 = n + 1 :=
    ⟨msgs.length - k0 - 1, by omega⟩
  have hstep : trimStep msgs k0 k0 =
      if trimCondResult msgs k0 then k0 - 1 else k0 := by
    simp only [trimStep]
    split <;> split <;> simp_all
  unfold trimKeepFrom
  rw [hn, List.range'_succ, List.foldl_cons, hstep]
  split <;> exact fold_trimStep_const msgs n (k0 + 1) _ (by omega)

/-- Helper: the adjacency discipline restricts to any suffix starting right
after a retained turn. -/
theorem wfAux_at (l : List Message) :
    ∀ (prev : Message) (k : Nat) (m : Message), wfAux prev l = true →
      l.get? k = some m → wfAux m (l.drop (k + 1)) = true := by
  induction l with
  | nil => intro prev k m _ h; simp at h
  | cons c rest ih =>
    intro prev k m hwf hget
    simp only [wfAux, Bool.and_eq_true] at hwf
    cases k with
    | zero =>
      simp only [List.get?] at hget
      cases hget
      simpa using hwf.2
    | succ j =>
      simp only [List.get?] at hget
      simpa using ih c j m hwf.2 hget

/-- Helper: `wfAux_at` for a whole well-formed transcript. -/
theorem wellFormed_at (l : List Message) (k : Nat) (m : Message)
    (hwf : wellFormedPairs l = true) (hget : l.get? k = some m) :
    wfAux m (l.drop (k + 1)) = true := by
  cases l with
  | nil => simp at hget
  | cons c rest =>
    simp only [wellFormedPairs, Bool.and_eq_true] at hwf
    cases k with
    | zero =>
      simp only [List.get?] at hget
      cases hget
      simpa using hwf.2
    | succ j =>
      simp only [List.get?] at hget
      simpa using wfAux_at rest c j m hwf.2 hget

/-- Helper: consecutive turns of a well-formed transcript satisfy the
adjacency obligation. -/
theorem wf_step_at (l : List Message) (k : Nat) (p m : Message)
    (hwf : wellFormedPairs l = true) (hp : l.get? k = some p)
    (hm : l.get? (k + 1) = some m) : wfStep p m = true := by
  have h1 := wellFormed_at l k p hwf hp
  rw [drop_eq_cons_of_get l (k + 1) m hm] at h1
  simp only [wfAux, Bool.and_eq_true] at h1
  exact h1.1

/-- Helper: a nonempty list is not `isEmpty`. -/
theorem isEmpty_false_of_ne_nil (l : List String) (h : l ≠ []) :
    l.isEmpty = false := by
  cases l with
  | nil => exact absurd rfl h
  | cons a t => rfl

/-- Helper: in a transcript obeying the adjacency discipline, only user
turns carry tool_result blocks. -/
theorem wfAux_results_user (l : List Message) :
    ∀ (prev : Message), wfAux prev l = true →
      ∀ m ∈ l, msgResultIds m ≠ [] → m.role = .user := by
  induction l with
  | nil => intro prev _ m hm; simp at hm
  | cons c rest ih =>
    intro prev hwf m hm hne
    simp only [wfAux, Bool.and_eq_true] at hwf
    rcases List.mem_cons.mp hm with h | h
    · subst h
      have hie := isEmpty_false_of_ne_nil _ hne
      have h2 := hwf.1
      simp only [wfStep, hie, Bool.false_eq_true, if_false, Bool.and_eq_true,
        beq_iff_eq] at h2
      exact h2.1.1
    · exact ih c hwf.2 m h hne

/-- Helper: scanning a transcript that obeys the adjacency discipline, with
a pool already covering the preceding turn's assistant uses, every
tool_result id is found in the pool. -/
theorem pairedEarlierAux_of_wfAux (l : List Message) :
    ∀ (prev : Message) (seen : List String), wfAux prev l = true →
      (∀ t, (usesIfAssistant prev).contains t = true →
        seen.contains t = true) →
      pairedEarlierAux seen l = true := by
  induction l with
  | nil => intro prev seen _ _; rfl
  | cons m rest ih =>
    intro prev seen hwf hsub
    simp only [wfAux, Bool.and_eq_true] at hwf
    simp only [pairedEarlierAux, Bool.and_eq_true]
    refine ⟨?_, ih m (seen ++ usesIfAssistant m) hwf.2
      (fun t ht => listContains_append_right _ _ _ ht)⟩
    by_cases hc : msgResultIds m = []
    · rw [hc]; rfl
    · have hie := isEmpty_false_of_ne_nil _ hc
      have h2 := hwf.1
      simp only [wfStep, hie, Bool.false_eq_true, if_false, Bool.and_eq_true,
        beq_iff_eq] at h2
      obtain ⟨⟨hmrole, hprole⟩, hall⟩ := h2
      have hup : usesIfAssistant prev = msgUseIds prev := by
        simp [usesIfAssistant, hprole]
      rw [List.all_eq_true] at hall ⊢
      intro x hx
      exact hsub x (by rw [hup]; exact hall x hx)

/-- Helper: a well-formed transcript satisfies the pairing invariant as it
stands. -/
theorem pairedEarlier_of_wf (l : List Message) (hwf : wellFormedPairs l = true) :
    pairedEarlier l = true := by
  cases l with
  | nil => rfl
  | cons m rest =>
    simp only [wellFormedPairs, Bool.and_eq_true] at hwf
    have hres : msgResultIds m = [] := by
      by_contra hne
      have h1 := hwf.1
      rw [isEmpty_false_of_ne_nil _ hne] at h1
      exact Bool.noConfusion h1
    simp only [pairedEarlier, pairedEarlierAux, Bool.and_eq_true, hres,
      List.all_nil, List.nil_append, true_and]
    exact pairedEarlierAux_of_wfAux rest m (usesIfAssistant m) hwf.2
      (fun t ht => ht)

/-- Helper: in a well-formed transcript, only user turns carry tool_result
blocks. -/
theorem wellFormed_results_user (l : List Message)
    (hwf : wellFormedPairs l = true) :
    ∀ m ∈ l, msgResultIds m ≠ [] → m.role = .user := by
  cases l with
  | nil => intro m hm; simp at hm
  | cons c rest =>
    intro m hm hne
    simp only [wellFormedPairs, Bool.and_eq_true] at hwf
    rcases List.mem_cons.mp hm with h | h
    · subst h
      have h1 := hwf.1
      rw [isEmpty_false_of_ne_nil _ hne] at h1
      exact Bool.noConfusion h1
    · exact wfAux_results_user rest c hwf.2 m h hne

set_option maxHeartbeats 1000000

/-- C2: once the transcript length exceeds `MAX_CONTEXT_MESSAGES`, trimming
a well-formed transcript (first turn resultless, each tool_result turn a
user turn standing right after the assistant turn carrying the matching
tool_uses, as the loop produces) either leaves it unchanged or keeps the
first turn plus the marker plus a contiguous suffix, and the trimmed
transcript still pairs every tool_result id with a tool_use of an earlier
assistant turn: trimming never splits a matched invocation/outcome pair. -/
theorem c2_trim_preserves_pairs (msgs : List Message)
    (hlen : MAX_CONTEXT_MESSAGES < msgs.length)
    (hwf : wellFormedPairs msgs = true) :
    pairedEarlier (trimConversationHistory true msgs) = true ∧
    (trimConversationHistory true msgs = msgs ∨
      ∃ k, 2 ≤ k ∧ k < msgs.length ∧
        trimConversationHistory true msgs =
          msgs.take 1 ++ summaryMessage :: msgs.drop k) := by
  rcases msgs with _ | ⟨m0, rest⟩
  · simp [MAX_CONTEXT_MESSAGES] at hlen
  have hmax : MAX_CONTEXT_MESSAGES = 10 := rfl
  have h10 : 10 < (m0 :: rest).length := by
    simpa [MAX_CONTEXT_MESSAGES] using hlen
  have hguard : ¬(true = false ∨ (m0 :: rest).length ≤ MAX_CONTEXT_MESSAGES) := by
    simp only [hmax]
    intro hor
    rcases hor with h | h
    · exact Bool.noConfusion h
    · omega
  have hres0 : msgResultIds m0 = [] := by
    simp only [wellFormedPairs, Bool.and_eq_true] at hwf
    by_contra hne
    have h1 := hwf.1
    rw [isEmpty_false_of_ne_nil _ hne] at h1
    exact Bool.noConfusion h1
  have hk0max : max 1 ((m0 :: rest).length - MAX_CONTEXT_MESSAGES + 1) =
      (m0 :: rest).length - 9 := by
    simp only [hmax]
    omega
  have hk01 : 2 ≤ (m0 :: rest).length - 9 := by omega
  have hk0lt : (m0 :: rest).length - 9 < (m0 :: rest).length := by omega
  have hkf := trimKeepFrom_eq (m0 :: rest) ((m0 :: rest).length - 9)
    (by omega) hk0lt
  by_cases hcond : trimCondResult (m0 :: rest) ((m0 :: rest).length - 9) = true
  · -- the scanned turn at k0 is a tool_result turn: keepFromIndex drops to k0 - 1
    have hkfA : trimKeepFrom (m0 :: rest) ((m0 :: rest).length - 9) =
        (m0 :: rest).length - 10 := by
      rw [hkf, if_pos hcond]
      omega
    -- unpack the condition
    have hc := hcond
    unfold trimCondResult at hc
    cases hget : (m0 :: rest).get? ((m0 :: rest).length - 9) with
    | none => rw [hget] at hc; exact Bool.noConfusion hc
    | some m =>
    rw [hget] at hc
    cases hget2 : (m0 :: rest).get? ((m0 :: rest).length - 9 - 1) with
    | none => rw [hget2] at hc; simp at hc
    | some p =>
    rw [hget2] at hc
    simp only [Bool.and_eq_true, beq_iff_eq, decide_eq_true_eq] at hc
    obtain ⟨⟨⟨hmrole, hmres⟩, hk0pos⟩, hprole⟩ := hc
    -- p is an assistant turn, so it carries no tool_results
    have hresp : msgResultIds p = [] := by
      by_contra hne
      have := wellFormed_results_user (m0 :: rest) hwf p (List.get?_mem hget2) hne
      rw [hprole] at this
      exact Role.noConfusion this
    have hwfp : wfAux p ((m0 :: rest).drop ((m0 :: rest).length - 9)) = true := by
      have h1 := wellFormed_at (m0 :: rest) ((m0 :: rest).length - 9 - 1) p hwf hget2
      have he : (m0 :: rest).length - 9 - 1 + 1 = (m0 :: rest).length - 9 := by omega
      rwa [he] at h1
    have hdropp : (m0 :: rest).drop ((m0 :: rest).length - 10) =
        p :: (m0 :: rest).drop ((m0 :: rest).length - 9) := by
      have h1 := drop_eq_cons_of_get (m0 :: rest) ((m0 :: rest).length - 9 - 1) p hget2
      have he : (m0 :: rest).length - 9 - 1 + 1 = (m0 :: rest).length - 9 := by omega
      have he2 : (m0 :: rest).length - 9 - 1 = (m0 :: rest).length - 10 := by omega
      rwa [he, he2] at h1
    by_cases hk2 : 1 < (m0 :: rest).length - 10
    · -- trimming happens: first turn, marker, suffix from k0 - 1
      have htrim : trimConversationHistory true (m0 :: rest) =
          m0 :: summaryMessage :: (m0 :: rest).drop ((m0 :: rest).length - 10) := by
        unfold trimConversationHistory
        rw [if_neg hguard]
        simp only [hk0max, hkfA]
        rw [if_pos hk2]
      constructor
      · rw [htrim, hdropp]
        simp only [pairedEarlier, pairedEarlierAux, Bool.and_eq_true, hres0,
          hresp, List.all_nil, List.nil_append, true_and]
        refine ⟨rfl, ?_⟩
        exact pairedEarlierAux_of_wfAux _ p _ hwfp
          (fun t ht => listContains_append_right _ _ t ht)
      · exact Or.inr ⟨(m0 :: rest).length - 10, by omega, by omega, htrim⟩
    · -- k0 = 2: keepFromIndex falls to 1 and the transcript is left alone
      have htrim : trimConversationHistory true (m0 :: rest) = m0 :: rest := by
        unfold trimConversationHistory
        rw [if_neg hguard]
        simp only [hk0max, hkfA]
        rw [if_neg hk2]
      exact ⟨by rw [htrim]; exact pairedEarlier_of_wf _ hwf, Or.inl htrim⟩
  · -- the scanned turn at k0 is no tool_result turn: keepFromIndex stays at k0
    have hcondf : trimCondResult (m0 :: rest) ((m0 :: rest).length - 9) = false :=
      Bool.not_eq_true _ ▸ (Bool.eq_false_iff.mpr hcond)
    have hkfB : trimKeepFrom (m0 :: rest) ((m0 :: rest).length - 9) =
        (m0 :: rest).length - 9 := by
      rw [hkf, if_neg hcond]
    cases hget : (m0 :: rest).get? ((m0 :: rest).length - 9) with
    | none =>
      exfalso
      have := List.get?_eq_none.mp hget
      omega
    | some m =>
    -- the turn at k0 carries no tool_results, else the condition would have fired
    have hresm : msgResultIds m = [] := by
      by_contra hne
      have hmrole : m.role = .user :=
        wellFormed_results_user (m0 :: rest) hwf m (List.get?_mem hget) hne
      cases hget2 : (m0 :: rest).get? ((m0 :: rest).length - 9 - 1) with
      | none =>
        have := List.get?_eq_none.mp hget2
        omega
      | some p =>
        have hgm : (m0 :: rest).get? ((m0 :: rest).length - 9 - 1 + 1) = some m := by
          have he : (m0 :: rest).length - 9 - 1 + 1 = (m0 :: rest).length - 9 := by
            omega
          rwa [he]
        have hstep := wf_step_at (m0 :: rest) ((m0 :: rest).length - 9 - 1) p m
          hwf hget2 hgm
        simp only [wfStep, isEmpty_false_of_ne_nil _ hne, Bool.false_eq_true,
          if_false, Bool.and_eq_true, beq_iff_eq] at hstep
        obtain ⟨⟨_, hprole⟩, _⟩ := hstep
        have : trimCondResult (m0 :: rest) ((m0 :: rest).length - 9) = true := by
          unfold trimCondResult
          rw [hget, hget2]
          simp only [Bool.and_eq_true, beq_iff_eq, decide_eq_true_eq]
          refine ⟨⟨⟨hmrole, ?_⟩, by omega⟩, hprole⟩
          rw [hasToolResultBlock_eq, isEmpty_false_of_ne_nil _ hne]
          rfl
        exact hcond this
    have hwfm : wfAux m ((m0 :: rest).drop ((m0 :: rest).length - 9 + 1)) = true :=
      wellFormed_at (m0 :: rest) ((m0 :: rest).length - 9) m hwf hget
    have hdropm : (m0 :: rest).drop ((m0 :: rest).length - 9) =
        m :: (m0 :: rest).drop ((m0 :: rest).length - 9 + 1) :=
      drop_eq_cons_of_get (m0 :: rest) ((m0 :: rest).length - 9) m hget
    have htrim : trimConversationHistory true (m0 :: rest) =
        m0 :: summaryMessage :: (m0 :: rest).drop ((m0 :: rest).length - 9) := by
      unfold trimConversationHistory
      rw [if_neg hguard]
      simp only [hk0max, hkfB]
      rw [if_pos (by omega : 1 < (m0 :: rest).length - 9)]
    constructor
    · rw [htrim, hdropm]
      simp only [pairedEarlier, pairedEarlierAux, Bool.and_eq_true, hres0,
        hresm, List.all_nil, List.nil_append, true_and]
      refine ⟨rfl, ?_⟩
      exact pairedEarlierAux_of_wfAux _ m _ hwfm
        (fun t ht => listContains_append_right _ _ t ht)
    · exact Or.inr ⟨(m0 :: rest).length - 9, by omega, by omega, htrim⟩

/-- A 12-turn loop-shaped conversation with four completed tool pairs. -/
def c2Msgs : List Message :=
  [⟨.user, .str "task"⟩,
   ⟨.assistant, .str "plan"⟩,
   ⟨.assistant, .blocks [.toolUse "t1" "read_file" {}]⟩,
   ⟨.user, .blocks [.toolResult "t1" "contents" false]⟩,
   ⟨.assistant, .blocks [.text "next", .toolUse "t2" "list_files" {}]⟩,
   ⟨.user, .blocks [.toolResult "t2" "files" false]⟩,
   ⟨.assistant, .str "thinking"⟩,
   ⟨.assistant, .blocks [.toolUse "t3" "run_command" {}]⟩,
   ⟨.user, .blocks [.toolResult "t3" "out" false]⟩,
   ⟨.assistant, .blocks [.toolUse "t4" "read_file" {}]⟩,
   ⟨.user, .blocks [.toolResult "t4" "data" false]⟩,
   ⟨.assistant, .str "done"⟩]

/-- Witness for C2 at a concrete 12-turn conversation. -/
theorem c2_witness :
    MAX_CONTEXT_MESSAGES < c2Msgs.length ∧ wellFormedPairs c2Msgs = true ∧
    (pairedEarlier (trimConversationHistory true c2Msgs) = true ∧
      (trimConversationHistory true c2Msgs = c2Msgs ∨
        ∃ k, 2 ≤ k ∧ k < c2Msgs.length ∧
          trimConversationHistory true c2Msgs =
            c2Msgs.take 1 ++ summaryMessage :: c2Msgs.drop k)) :=
  ⟨by decide, by decide, c2_trim_preserves_pairs c2Msgs (by decide) (by decide)⟩

end Nexus
